import Mathlib

/-!
Verification development for the `game-dummy-demo` repository: a 2-4 player
lobby plus a turn-based "Dummy" card game whose shared state lives in a
tree-structured document store mutated only through optimistic transactions.

The embedding below translates the transaction updater functions from the
source (the deal/bootstrap effect, `drawStock`, `takeTopDiscard`, `eatHead`,
`discardCardById`, `layMeld`, `claimSlot`, `startGameBySlot1`, and the meld
classifier `isValidSet` / `isValidRun` / `classifyMeld`) into pure Lean
functions on an explicit state type.

Modelling conventions:
- A card identity is modelled as a `Nat`; the source uses a UUID-tagged string
  that is globally unique per physical card (one per suit/rank pair in a deck).
- JS objects used as string-keyed records (`players`, `hands`, `cardOrigins`)
  are modelled as insertion-ordered association lists, matching the in-memory
  iteration order (`Object.keys`) of string-keyed JS objects.
- `shuffle` produces a uniformly random permutation; it is modelled by
  quantifying over an arbitrary permutation of `makeDeck`.
- A transaction updater that returns the old value unchanged, or that throws
  (property access on `undefined`), commits no change; both are modelled by
  returning the input state.
- `Date.now()` and `crypto.randomUUID()` results are passed as parameters.
-/

/-! ## Basic data model (types from `part_003`) -/

inductive Suit
  | C | D | H | S
deriving DecidableEq, Repr

structure Card where
  id : Nat
  r : Nat
  s : Suit
deriving DecidableEq, Repr

instance : Inhabited Card := ⟨⟨0, 0, Suit.C⟩⟩

structure DiscardCard where
  id : Nat
  r : Nat
  s : Suit
  fromUid : Option String
  atMs : Nat
deriving DecidableEq, Repr

def toCardD (d : DiscardCard) : Card := ⟨d.id, d.r, d.s⟩

inductive OriginKind
  | stock | discard
deriving DecidableEq, Repr

structure Origin where
  kind : OriginKind
  fromUid : Option String
deriving DecidableEq, Repr

inductive MeldKind
  | set | run
deriving DecidableEq, Repr

structure Meld where
  id : Nat
  ownerUid : String
  kind : MeldKind
  cards : List Card
  createdAt : Nat
deriving DecidableEq, Repr

structure GamePlayer where
  name : String
  hand : List Card
  hasMelded : Bool
  score : Nat
  scoredCards : List Card
  lastTurnTookDiscardFromUid : Option String
deriving DecidableEq, Repr

inductive Phase
  | lobby | playing
deriving DecidableEq, Repr

inductive Step
  | draw | discard
deriving DecidableEq, Repr

structure GameState where
  phase : Phase
  startedAt : Option Nat
  turnUid : Option String
  step : Step
  headCardId : Option Nat
  stock : List Card
  discard : List DiscardCard
  cardOrigins : List (Nat × Origin)
  tableMelds : List Meld
  players : List (String × GamePlayer)
  winnerUid : Option String
  endedAt : Option Nat
deriving DecidableEq, Repr

/-! ## Record helpers (JS object assignment / lookup on association lists) -/

/-- JS `m[k] = v` on a string-keyed record: overwrite in place if the key is
present, else append at the end (insertion order preserved). -/
def setAssoc (m : List (Nat × Origin)) (k : Nat) (v : Origin) : List (Nat × Origin) :=
  if m.any (fun p => p.1 = k) then m.map (fun p => if p.1 = k then (k, v) else p)
  else m ++ [(k, v)]

/-- JS `m[k]` read on a record. -/
def getAssoc (m : List (Nat × Origin)) (k : Nat) : Option Origin :=
  (m.find? (fun p => p.1 = k)).map (fun p => p.2)

/-- JS in-place mutation of `players[u]` (e.g. `cur.players[uid].hand.push`). -/
def updatePlayer (ps : List (String × GamePlayer)) (u : String)
    (f : GamePlayer → GamePlayer) : List (String × GamePlayer) :=
  ps.map (fun p => if p.1 = u then (p.1, f p.2) else p)

/-- JS `cur.players?.[u]` read. -/
def lookupPlayer (ps : List (String × GamePlayer)) (u : String) : Option GamePlayer :=
  (ps.find? (fun p => p.1 = u)).map (fun p => p.2)

/-- Key list of the `players` record, i.e. `Object.keys(cur.players)`. -/
def playerKeys (g : GameState) : List String := g.players.map (fun p => p.1)

/-- JS `Array.prototype.findIndex` specialised to card predicates. -/
def findIndex (p : Card → Bool) : List Card → Option Nat
  | [] => none
  | c :: t => if p c then some 0 else (findIndex p t).map (fun i => i + 1)

/-! ## Deck construction (`makeDeck`; `shuffle` is modelled by quantifying
over permutations of `makeDeck`) -/

def suitIdx (s : Suit) : Nat :=
  match s with
  | .C => 0 | .D => 1 | .H => 2 | .S => 3

/-- 52-card deck, one card per suit/rank pair; `id` models the unique
UUID-tagged string id of the source. -/
def makeDeck : List Card :=
  [Suit.C, Suit.D, Suit.H, Suit.S].flatMap (fun s =>
    (List.range 13).map (fun i => ⟨suitIdx s * 13 + i, i + 1, s⟩))

/-! ## Meld classifier (`isValidSet` / `isValidRun` / `classifyMeld`) -/

def isValidSet (cards : List Card) : Bool :=
  if cards.length < 3 then false
  else
    match cards with
    | [] => false
    | c0 :: _ =>
      cards.all (fun c => c.r = c0.r) &&
        ((cards.map (fun c => c.s)).dedup.length = cards.length)

/-- JS `rs[i] !== rs[i-1] + 1` loop: adjacent entries differ by exactly one. -/
def consecChain : List Nat → Bool
  | a :: b :: t => (b = a + 1) && consecChain (b :: t)
  | _ => true

def isValidRun (cards : List Card) : Bool :=
  if cards.length < 3 then false
  else
    match cards with
    | [] => false
    | c0 :: _ =>
      cards.all (fun c => c.s = c0.s) &&
        consecChain ((cards.map (fun c => c.r)).insertionSort (· ≤ ·))

/-- `classifyMeld`: `some kind` models `{ok: true, kind}`, `none` models
`{ok: false}`. The set test runs first. -/
def classifyMeld (cards : List Card) : Option MeldKind :=
  if isValidSet cards then some .set
  else if isValidRun cards then some .run
  else none

/-! ## Deal / bootstrap transaction (the init `runTransaction` updater) -/

abbrev Hands := List (String × List Card)

/-- JS `hands[u].push(c)`. -/
def pushHand (hs : Hands) (u : String) (c : Card) : Hands :=
  hs.map (fun p => if p.1 = u then (p.1, p.2 ++ [c]) else p)

/-- One `hands[puid].push(deck.pop()!)` step. The deck is popped from the end.
The empty-deck case is unreachable for at most four players. -/
def dealOne (st : Hands × List Card) (u : String) : Hands × List Card :=
  match st.2.getLast? with
  | some c => (pushHand st.1 u c, st.2.dropLast)
  | none => (st.1, st.2)

/-- The inner `for (const puid of joinedUids)` loop of one dealing round. -/
def dealRound (uids : List String) (st : Hands × List Card) : Hands × List Card :=
  uids.foldl dealOne st

/-- The full `for (let i = 0; i < 7; i++)` dealing loop: seven round-robin
rounds over the joined identities, starting from empty hands. -/
def dealAll (uids : List String) (deck : List Card) : Hands × List Card :=
  (List.range 7).foldl (fun st _ => dealRound uids st)
    (uids.map (fun u => (u, ([] : List Card))), deck)

/-- The per-player record built by the bootstrap for each dealt hand
(name carried over from any previous record, else "Player"). -/
def initPlayersMap (cur : GameState) (p : String × List Card) : String × GamePlayer :=
  (p.1,
    { name := ((lookupPlayer cur.players p.1).map (fun q => q.name)).getD "Player"
      hand := p.2
      hasMelded := false
      score := 0
      scoredCards := []
      lastTurnTookDiscardFromUid := none })

/-- Re-basing of the pile on an optional fresh head card:
`head ? [{...head, fromUid: null, at: now}] : []`. -/
def rebasePile (o : Option Card) (now : Nat) : List DiscardCard :=
  match o with
  | some h => [⟨h.id, h.r, h.s, none, now⟩]
  | none => []

/-- The bootstrap transaction updater from the init effect: guarded by
`phase == playing` and emptiness of both stock and discard, it deals seven
cards to every joined identity, re-bases the discard pile on a head card
popped from the remaining stock, and initialises all bookkeeping.
`deck` is the output of `shuffle(makeDeck())`; `now` is `Date.now()`. -/
def initTx (deck : List Card) (joined : List String) (now : Nat)
    (cur : GameState) : GameState :=
  if cur.phase ≠ .playing then cur
  else if cur.stock.length > 0 ∨ cur.discard.length > 0 then cur
  else
    let dealt := dealAll joined deck
    let hands := dealt.1
    let stock0 := dealt.2
    let head := stock0.getLast?
    let players : List (String × GamePlayer) := hands.map (initPlayersMap cur)
    let cardOrigins : List (Nat × Origin) :=
      hands.foldl (fun m p => p.2.foldl (fun m c => setAssoc m c.id ⟨.stock, none⟩) m) []
    { cur with
      stock := stock0.dropLast
      discard := rebasePile head now
      headCardId := head.map (fun h => h.id)
      players := players
      cardOrigins := cardOrigins
      tableMelds := []
      turnUid := cur.turnUid.orElse (fun _ => joined.head?)
      step := .draw
      winnerUid := none
      endedAt := none }

/-! ## Draw-phase actions -/

/-- The `drawStock` transaction updater. -/
def drawStockTx (uid : String) (cur : GameState) : GameState :=
  if cur.phase ≠ .playing then cur
  else if cur.winnerUid.isSome || cur.endedAt.isSome then cur
  else if ¬(cur.turnUid = some uid ∧ cur.step = .draw) then cur
  else
    match cur.stock.getLast? with
    | none => cur
    | some card =>
      match lookupPlayer cur.players uid with
      | none => cur
      | some _ =>
        { cur with
          stock := cur.stock.dropLast
          players := updatePlayer cur.players uid (fun p =>
            { p with hand := p.hand ++ [card], lastTurnTookDiscardFromUid := none })
          cardOrigins := setAssoc cur.cardOrigins card.id ⟨.stock, none⟩
          step := .discard }

/-- The `takeTopDiscard` transaction updater: only the pile's top card, and
only when the pile holds at least two cards (the head alone is protected). -/
def takeTopDiscardTx (uid : String) (cur : GameState) : GameState :=
  if cur.phase ≠ .playing then cur
  else if cur.winnerUid.isSome || cur.endedAt.isSome then cur
  else if ¬(cur.turnUid = some uid ∧ cur.step = .draw) then cur
  else if cur.discard.length < 2 then cur
  else
    match cur.discard.getLast? with
    | none => cur
    | some card =>
      match lookupPlayer cur.players uid with
      | none => cur
      | some _ =>
        { cur with
          discard := cur.discard.dropLast
          players := updatePlayer cur.players uid (fun p =>
            { p with hand := p.hand ++ [toCardD card],
                     lastTurnTookDiscardFromUid := card.fromUid })
          cardOrigins := setAssoc cur.cardOrigins card.id ⟨.discard, card.fromUid⟩
          step := .discard }

/-- The `eatHead` transaction updater: the whole pile (head included) moves
into the caller's hand with pile provenance, then the pile is re-based on one
fresh stock card (or left empty when the stock is exhausted). -/
def eatHeadTx (uid : String) (now : Nat) (cur : GameState) : GameState :=
  if cur.phase ≠ .playing then cur
  else if cur.winnerUid.isSome || cur.endedAt.isSome then cur
  else if ¬(cur.turnUid = some uid ∧ cur.step = .draw) then cur
  else
    match lookupPlayer cur.players uid with
    | none => cur
    | some _ =>
      { cur with
        players := updatePlayer cur.players uid (fun p =>
          { p with hand := p.hand ++ cur.discard.map toCardD,
                   lastTurnTookDiscardFromUid := none })
        cardOrigins := cur.discard.foldl
          (fun m c => setAssoc m c.id ⟨.discard, c.fromUid⟩) cur.cardOrigins
        stock := cur.stock.dropLast
        discard := rebasePile cur.stock.getLast? now
        headCardId := (cur.stock.getLast?).map (fun h => h.id)
        step := .discard }

/-! ## Discard-phase actions -/

/-- The `discardCardById` transaction updater: splice the card out of the
hand, push it on the pile tagged with the discarder, and pass the turn to the
next key of the `players` record with wrap-around. The source reads
`cur.players?.[uid]?.hand ?? []`; an absent player yields the empty hand, on
which the index search always misses, so that case aborts directly here. -/
def discardTxCore (uid : String) (cardId : Nat) (now : Nat) (cur : GameState)
    (q : GamePlayer) : GameState :=
  match findIndex (fun c => c.id = cardId) q.hand with
  | none => cur
  | some idx =>
    { cur with
      players := updatePlayer cur.players uid (fun p =>
        { p with hand := p.hand.eraseIdx idx })
      discard := cur.discard ++
        [⟨(q.hand.getD idx default).id, (q.hand.getD idx default).r,
          (q.hand.getD idx default).s, some uid, now⟩]
      cardOrigins := setAssoc cur.cardOrigins (q.hand.getD idx default).id
        ⟨.discard, some uid⟩
      turnUid := (cur.players.map (fun p => p.1)).get?
        (((cur.players.map (fun p => p.1)).indexOf uid + 1)
          % (cur.players.map (fun p => p.1)).length)
      step := .draw }

def discardTx (uid : String) (cardId : Nat) (now : Nat) (cur : GameState) : GameState :=
  if cur.phase ≠ .playing then cur
  else if cur.winnerUid.isSome || cur.endedAt.isSome then cur
  else if ¬(cur.turnUid = some uid ∧ cur.step = .discard) then cur
  else
    match lookupPlayer cur.players uid with
    | none => cur
    | some q => discardTxCore uid cardId now cur q

/-- The picking loop of `layMeld`: for each selected id, locate it in the
(unmodified) hand, collecting the cards and their indices; abort on a miss. -/
def pickLoop (hand : List Card) : List Nat → Option (List Card × List Nat)
  | [] => some ([], [])
  | cid :: rest =>
    match findIndex (fun c => c.id = cid) hand with
    | none => none
    | some idx =>
      match pickLoop hand rest with
      | none => none
      | some (cs, idxs) => some (hand.getD idx default :: cs, idx :: idxs)

/-- JS numeric sort with comparator `(a, b) => b - a`: descending order. -/
def insertDesc (x : Nat) : List Nat → List Nat
  | [] => [x]
  | y :: t => if x ≥ y then x :: y :: t else y :: insertDesc x t

def sortDesc (l : List Nat) : List Nat := l.foldr insertDesc []

/-- JS `idxs.forEach(i => hand.splice(i, 1))` over descending indices. -/
def spliceAll (hand : List Card) (idxs : List Nat) : List Card :=
  idxs.foldl (fun acc i => acc.eraseIdx i) hand

/-- The `layMeld` transaction updater (with its `ids.length < 3` local
precheck, which sends no transaction at all). `ids` is `Object.keys(selected)`
(hence duplicate-free in the source), `meldId` models `crypto.randomUUID()`.
The source reads `cur.players?.[uid]?.hand ?? []`; for an absent player the
hand is empty and picking three or more selected ids must fail, so that case
aborts directly here (the `ids.length < 3` precheck has already fired). -/
def layMeldTxCore (uid : String) (ids : List Nat) (meldId now : Nat)
    (cur : GameState) (q : GamePlayer) : GameState :=
  match pickLoop q.hand ids with
  | none => cur
  | some (picked, pickedIdx) =>
    match classifyMeld picked with
    | none => cur
    | some kind =>
      if ¬(picked.any (fun c =>
          ((getAssoc cur.cardOrigins c.id).map (fun o => o.kind))
            = some .discard)) then cur
      else
        { cur with
          players := updatePlayer cur.players uid (fun p =>
            { p with hand := spliceAll q.hand (sortDesc pickedIdx),
                     hasMelded := true,
                     scoredCards := p.scoredCards ++ picked })
          tableMelds := cur.tableMelds ++
            [⟨meldId, uid, kind, picked, now⟩] }

def layMeldTx (uid : String) (ids : List Nat) (meldId now : Nat)
    (cur : GameState) : GameState :=
  if ids.length < 3 then cur
  else if cur.phase ≠ .playing then cur
  else if cur.winnerUid.isSome || cur.endedAt.isSome then cur
  else if ¬(cur.turnUid = some uid ∧ cur.step = .discard) then cur
  else
    match lookupPlayer cur.players uid with
    | none => cur
    | some q => layMeldTxCore uid ids meldId now cur q

/-- The five in-match actions, for uniform preservation statements. -/
inductive GAction
  | draw (uid : String)
  | takeTop (uid : String)
  | eat (uid : String) (now : Nat)
  | disc (uid : String) (cardId : Nat) (now : Nat)
  | meld (uid : String) (ids : List Nat) (meldId : Nat) (now : Nat)

def applyAction : GAction → GameState → GameState
  | .draw u, s => drawStockTx u s
  | .takeTop u, s => takeTopDiscardTx u s
  | .eat u n, s => eatHeadTx u n s
  | .disc u c n, s => discardTx u c n s
  | .meld u ids m n, s => layMeldTx u ids m n s

/-- Well-formedness of an action invocation: `layMeld` is always called with
the duplicate-free key list of the selection record. -/
def actionWF : GAction → Prop
  | .meld _ ids _ _ => ids.Nodup
  | _ => True

/-! ## Card accounting -/

def sumHands (ps : List (String × GamePlayer)) : Nat :=
  (ps.map (fun p => p.2.hand.length)).sum

def meldsLen (ms : List Meld) : Nat :=
  (ms.map (fun m => m.cards.length)).sum

/-- The quantity claimed invariant by the spec: hands + stock + pile. -/
def claimSum (g : GameState) : Nat :=
  sumHands g.players + g.stock.length + g.discard.length

/-- Total card count including cards already laid on the table as melds. -/
def totalCards (g : GameState) : Nat :=
  sumHands g.players + g.stock.length + g.discard.length + meldsLen g.tableMelds

/-- Every card in the live state, in a fixed traversal order: hands, stock,
pile, table melds. -/
def allCards (g : GameState) : List Card :=
  g.players.flatMap (fun p => p.2.hand) ++ g.stock ++ g.discard.map toCardD ++
    g.tableMelds.flatMap (fun m => m.cards)

/-! ## Lobby: seats, claiming, ready, start gate (from `part_002`) -/

structure Seat where
  uid : String
  name : String
  ready : Bool
deriving DecidableEq, Repr

/-- The `claimSlot` transaction updater. `none` result models the bare
`return;` (undefined), which aborts the transaction; `some v` proposes the
new slot value `v`. -/
def claimSlotTx (uid nm : String) (cur : Option Seat) : Option (Option Seat) :=
  match cur with
  | none => some (some ⟨uid, nm, false⟩)
  | some s => if s.uid = uid then some (some s) else none

/-- The store's transaction primitive on a slot path, serialised: an aborting
updater yields `committed = false` and leaves the value unchanged. -/
def runSlotTx (f : Option Seat → Option (Option Seat)) (cur : Option Seat) :
    Bool × Option Seat :=
  match f cur with
  | some v => (true, v)
  | none => (false, cur)

/-- A serialisation of concurrent `claimSlot` attempts (uid, name) against one
seat: the store applies them one at a time, each seeing the latest value;
returns the committed flags in order and the final seat value. -/
def runClaims : List (String × String) → Option Seat → List Bool × Option Seat
  | [], cur => ([], cur)
  | (u, n) :: rest, cur =>
    let r := runSlotTx (claimSlotTx u n) cur
    let rr := runClaims rest r.2
    (r.1 :: rr.1, rr.2)

/-- The four lobby slots of a room. -/
structure Slots4 where
  s1 : Option Seat
  s2 : Option Seat
  s3 : Option Seat
  s4 : Option Seat
deriving DecidableEq, Repr

inductive RoomStatus
  | lobby | playing
deriving DecidableEq, Repr

/-- The lobby-relevant projection of a room document; `none` fields model
absent fields of legacy rooms (normalised with `?? "lobby"` on read). -/
structure RoomDoc where
  status : Option RoomStatus
  gamePhase : Option Phase
  slots : Slots4
deriving DecidableEq, Repr

def slotList (s : Slots4) : List (Option Seat) := [s.s1, s.s2, s.s3, s.s4]

/-- `[slots[1], ..., slots[4]].filter(x => x !== null)`. -/
def currentPlayers (s : Slots4) : List Seat := (slotList s).filterMap id

def playerCount (s : Slots4) : Nat := (currentPlayers s).length

/-- `playerCount > 0 && currentPlayers.every(p => p.ready === true)`. -/
def everyoneReady (s : Slots4) : Bool :=
  decide (playerCount s > 0) && (currentPlayers s).all (fun p => p.ready)

def statusOf (r : RoomDoc) : RoomStatus := r.status.getD .lobby

def phaseOf (r : RoomDoc) : Phase := r.gamePhase.getD .lobby

/-- The `canStart` start-condition check. -/
def canStart (r : RoomDoc) : Bool :=
  decide (statusOf r = .lobby) && decide (phaseOf r = .lobby) &&
    decide (2 ≤ playerCount r.slots) && decide (playerCount r.slots ≤ 4) &&
    everyoneReady r.slots

/-- Whether the caller occupies seat 1. -/
def iAmSlot1 (uid : String) (r : RoomDoc) : Bool :=
  (r.slots.s1.map (fun s => s.uid)) = some uid

/-- The control path of `startGameBySlot1`: a local precondition check
against the last-seen snapshot, then a mandatory re-fetch (`latest`, `none`
when the room vanished) and an identical authoritative re-check. Returns
`true` exactly when the lobby-to-playing transition is issued. -/
def startProceeds (uid : String) (localRoom : RoomDoc) (latest : Option RoomDoc) :
    Bool :=
  if ¬iAmSlot1 uid localRoom then false
  else if ¬canStart localRoom then false
  else
    match latest with
    | none => false
    | some l =>
      if ¬((l.slots.s1.map (fun s => s.uid)) = some uid) then false
      else canStart l

/-- The game subtree touched by the start transition in `part_002`. -/
structure GameLite where
  phase : Phase
  startedAt : Option Nat
deriving DecidableEq, Repr

/-- The double-start guard transaction on the game subtree: commits the
`phase := playing` flip only if the phase is still `lobby`. -/
def startTx (now : Nat) (g : Option GameLite) : Option GameLite :=
  match g with
  | none => none
  | some gg => if gg.phase ≠ .lobby then some gg else some ⟨.playing, some now⟩

/-! ## Joined identities (`joinedUids` from `part_003`) -/

/-- `Array.from(new Set(xs))`: deduplication keeping the first occurrence. -/
def dedupFirst : List String → List String
  | [] => []
  | a :: l => a :: dedupFirst (l.filter (fun x => x ≠ a))
termination_by l => l.length
decreasing_by
  simpa using Nat.lt_succ_of_le (List.length_filter_le _ l)

/-- `joinedUids`: the slot occupants' identities in seat order, deduplicated
keeping the first occurrence. -/
def joinedUids (s : Slots4) : List String :=
  dedupFirst ((slotList s).filterMap (fun o => o.map (fun x => x.uid)))

/-! ## Concrete states used by counterexamples and witnesses -/

def fiveC : Card := ⟨4, 5, Suit.C⟩
def fiveD : Card := ⟨17, 5, Suit.D⟩
def fiveH : Card := ⟨30, 5, Suit.H⟩

def cexOthers : List Card :=
  makeDeck.filter (fun c => !(c.id == 4 || c.id == 17 || c.id == 30))

/-- A concrete shuffle outcome: player A is dealt `5C` and `5D` (among
others), and the first head card is `5H`. -/
def cexDeck : List Card :=
  cexOthers.take 37 ++ [fiveH] ++ (cexOthers.drop 37).take 11 ++ [fiveD] ++
    cexOthers.drop 48 ++ [fiveC]

/-- The game subtree as written by the start transition, before the deal. -/
def startState : GameState :=
  { phase := .playing, startedAt := some 0, turnUid := some "A", step := .draw,
    headCardId := none, stock := [], discard := [], cardOrigins := [],
    tableMelds := [], players := [], winnerUid := none, endedAt := none }

/-- Post-bootstrap state for the two joined identities A and B. -/
def cs1 : GameState := initTx cexDeck ["A", "B"] 1 startState

/-- A eats the head (acquiring `5H` with pile provenance). -/
def cs2 : GameState := eatHeadTx "A" 2 cs1

/-- A lays the meld `{5C, 5D, 5H}` (ids 4, 17, 30). -/
def cs3 : GameState := layMeldTx "A" [4, 17, 30] 99 3 cs2

/-- Alternative continuation: right after eating the head, A discards `5C`. -/
def cs6 : GameState := discardTx "A" 4 3 cs2

def wPlayerA : GamePlayer :=
  { name := "A", hand := [⟨3, 4, Suit.C⟩, ⟨4, 5, Suit.C⟩, ⟨5, 6, Suit.C⟩],
    hasMelded := false, score := 0, scoredCards := [],
    lastTurnTookDiscardFromUid := none }

def wPlayerB : GamePlayer :=
  { name := "B", hand := [⟨40, 2, Suit.S⟩], hasMelded := false, score := 0,
    scoredCards := [], lastTurnTookDiscardFromUid := none }

/-- A small playing state: A holds a valid run `4C 5C 6C`, all of it drawn
from stock, and it is A's discard step. -/
def wMeldState : GameState :=
  { phase := .playing, startedAt := some 0, turnUid := some "A",
    step := .discard, headCardId := some 100, stock := [⟨50, 12, Suit.S⟩],
    discard := [⟨100, 9, Suit.S, none, 0⟩],
    cardOrigins := [(3, ⟨.stock, none⟩), (4, ⟨.stock, none⟩), (5, ⟨.stock, none⟩)],
    tableMelds := [], players := [("A", wPlayerA), ("B", wPlayerB)],
    winnerUid := none, endedAt := none }

/-- A small playing state at A's draw step whose pile holds two cards. -/
def wTakeState : GameState :=
  { phase := .playing, startedAt := some 0, turnUid := some "A", step := .draw,
    headCardId := some 100, stock := [⟨50, 12, Suit.S⟩],
    discard := [⟨100, 9, Suit.S, none, 0⟩, ⟨101, 3, Suit.H, some "B", 1⟩],
    cardOrigins := [], tableMelds := [],
    players := [("A", wPlayerA), ("B", wPlayerB)],
    winnerUid := none, endedAt := none }

/-- A two-seat lobby room with both occupants ready. -/
def wRoom : RoomDoc :=
  ⟨some .lobby, some .lobby,
    ⟨some ⟨"u1", "Ann", true⟩, some ⟨"u2", "Bob", true⟩, none, none⟩⟩


/-- Hand record lookup (`hands[u]`, empty when absent). -/
def handOf (hs : Hands) (u : String) : List Card :=
  ((hs.find? (fun p => p.1 = u)).map (fun p => p.2)).getD []

/-- All cards currently held in hands, in record order. -/
def handsCards (hs : Hands) : List Card := hs.flatMap (fun p => p.2)

/-- Key list of a hands record. -/
def handKeys (hs : Hands) : List String := hs.map (fun p => p.1)

/-- The successor of `u` in the key list, with wrap-around. -/
def nextInJoinOrder (uids : List String) (u : String) : Option String :=
  uids.get? ((uids.indexOf u + 1) % uids.length)

/-! ## Specification-side meld predicates (from the spec text, for the
refinement check against the classifier translated from the code) -/

/-- Spec wording: at least 3 cards, identical rank, pairwise-distinct suits. -/
def specIsSet (cards : List Card) : Prop :=
  3 ≤ cards.length ∧ (∃ r, ∀ c ∈ cards, c.r = r) ∧
    cards.Pairwise (fun a b => a.s ≠ b.s)

/-- Spec wording: at least 3 cards, identical suit, ranks sorted ascending
strictly consecutive (no wraparound): the multiset of ranks is exactly a
contiguous ascending block `a, a+1, ..., a + n - 1` of naturals. -/
def specIsRun (cards : List Card) : Prop :=
  3 ≤ cards.length ∧ (∃ s, ∀ c ∈ cards, c.s = s) ∧
    ∃ a, (cards.map (fun c => c.r)).Perm (List.range' a cards.length)

/-! ## Helper lemmas: record operations -/

theorem find?_map_overwrite (m : List (Nat × Origin)) (k : Nat) (v : Origin)
    (h : m.any (fun p => p.1 = k) = true) :
    (m.map (fun p => if p.1 = k then (k, v) else p)).find? (fun p => p.1 = k)
      = some (k, v) := by
  induction m with
  | nil => simp at h
  | cons p t ih =>
    by_cases hk : p.1 = k
    · simp [List.find?, hk]
    · simp only [List.any_cons, Bool.or_eq_true, decide_eq_true_eq] at h
      rcases h with h | h
    
      · exact absurd h hk
      · simp only [List.map_cons, if_neg hk]
        rw [List.find?_cons_of_neg _ (by simpa using hk)]
        exact ih h

theorem find?_append_fresh (m : List (Nat × Origin)) (k : Nat) (v : Origin)
    (h : m.any (fun p => p.1 = k) = false) :
    (m ++ [(k, v)]).find? (fun p => p.1 = k) = some (k, v) := by
  induction m with
  | nil => simp [List.find?]
  | cons p t ih =>
    simp only [List.any_cons, Bool.or_eq_false_iff, decide_eq_false_iff_not] at h
    rw [List.cons_append, List.find?_cons_of_neg _ (by simpa using h.1)]
    exact ih (by simpa using h.2)

theorem getAssoc_setAssoc_self (m : List (Nat × Origin)) (k : Nat) (v : Origin) :
    getAssoc (setAssoc m k v) k = some v := by
  unfold getAssoc setAssoc
  cases hm : m.any (fun p => p.1 = k) with
  | true => rw [if_pos rfl, find?_map_overwrite m k v hm]; rfl
  | false => rw [if_neg (by simp), find?_append_fresh m k v hm]; rfl

theorem updatePlayer_keys (ps : List (String × GamePlayer)) (u : String)
    (f : GamePlayer → GamePlayer) :
    (updatePlayer ps u f).map (fun p => p.1) = ps.map (fun p => p.1) := by
  unfold updatePlayer
  induction ps with
  | nil => rfl
  | cons p t ih =>
    by_cases h : p.1 = u <;> simp [h, ih]

theorem updatePlayer_not_mem (ps : List (String × GamePlayer)) (u : String)
    (f : GamePlayer → GamePlayer) (h : u ∉ ps.map (fun p => p.1)) :
    updatePlayer ps u f = ps := by
  unfold updatePlayer
  induction ps with
  | nil => rfl
  | cons p t ih =>
    simp only [List.map_cons, List.mem_cons] at h
    push_neg at h
    have h1 : ¬(p.1 = u) := fun hh => h.1 hh.symm
    simp [h1, ih h.2]

theorem lookupPlayer_updatePlayer_self (ps : List (String × GamePlayer)) (u : String)
    (f : GamePlayer → GamePlayer) :
    lookupPlayer (updatePlayer ps u f) u = (lookupPlayer ps u).map f := by
  unfold lookupPlayer updatePlayer
  induction ps with
  | nil => rfl
  | cons p t ih =>
    by_cases h : p.1 = u
    · simp [List.find?, h]
    · simp only [List.map_cons, if_neg h]
      rw [List.find?_cons_of_neg _ (by simpa using h),
        List.find?_cons_of_neg _ (by simpa using h)]
      exact ih

theorem lookupPlayer_of_mem (ps : List (String × GamePlayer))
    (q : String × GamePlayer) (hnd : (ps.map (fun r => r.1)).Nodup)
    (hq : q ∈ ps) : lookupPlayer ps q.1 = some q.2 := by
  induction ps with
  | nil => simp at hq
  | cons p t ih =>
    simp only [List.map_cons, List.nodup_cons] at hnd
    rcases List.mem_cons.mp hq with h | h
    · subst h
      unfold lookupPlayer
      simp [List.find?]
    · have hne : ¬(p.1 = q.1) := by
        intro he
        exact hnd.1 (he ▸ (List.mem_map.mpr ⟨q, h, rfl⟩))
      unfold lookupPlayer
      rw [List.find?_cons_of_neg _ (by simpa using hne)]
      exact ih hnd.2 h

theorem sumHands_updatePlayer (ps : List (String × GamePlayer)) (u : String)
    (f : GamePlayer → GamePlayer) (p : GamePlayer)
    (hnd : (ps.map (fun q => q.1)).Nodup) (hl : lookupPlayer ps u = some p) :
    sumHands (updatePlayer ps u f) + p.hand.length
      = sumHands ps + (f p).hand.length := by
  induction ps with
  | nil => simp [lookupPlayer] at hl
  | cons q t ih =>
    simp only [List.map_cons, List.nodup_cons] at hnd
    by_cases h : q.1 = u
    · have hq : lookupPlayer (q :: t) u = some q.2 := by
        unfold lookupPlayer; simp [List.find?, h]
      rw [hq] at hl
      have hp : q.2 = p := by injection hl
      have hnm : u ∉ t.map (fun r => r.1) := h ▸ hnd.1
      unfold updatePlayer sumHands
      simp only [List.map_cons, if_pos h]
      rw [show (t.map (fun r => if r.1 = u then (r.1, f r.2) else r)) =
            updatePlayer t u f from rfl, updatePlayer_not_mem t u f hnm]
      simp only [List.sum_cons, hp]
      omega
    · have hq : lookupPlayer (q :: t) u = lookupPlayer t u := by
        unfold lookupPlayer
        rw [List.find?_cons_of_neg _ (by simpa using h)]
      rw [hq] at hl
      have := ih hnd.2 hl
      unfold updatePlayer sumHands at this ⊢
      simp only [List.map_cons, if_neg h, List.sum_cons]
      omega

theorem findIndex_some {p : Card → Bool} {l : List Card} {i : Nat}
    (h : findIndex p l = some i) :
    i < l.length ∧ p (l.getD i default) = true := by
  induction l generalizing i with
  | nil => simp [findIndex] at h
  | cons c t ih =>
    unfold findIndex at h
    by_cases hc : p c
    · rw [if_pos hc] at h
      have h0 : i = 0 := by injection h with h; omega
      subst h0
      simpa using hc
    · rw [if_neg hc] at h
      rcases Option.map_eq_some'.mp h with ⟨j, hj, hji⟩
      obtain ⟨h1, h2⟩ := ih hj
      subst hji
      constructor
      · simpa using h1
      · simpa using h2

/-! ## Helper lemmas: the dealing loop -/

theorem pushHand_keys (hs : Hands) (u : String) (c : Card) :
    handKeys (pushHand hs u c) = handKeys hs := by
  unfold handKeys pushHand
  induction hs with
  | nil => rfl
  | cons p t ih =>
    by_cases h : p.1 = u <;> simp [h, ih]

theorem pushHand_not_mem (hs : Hands) (u : String) (c : Card)
    (h : u ∉ handKeys hs) : pushHand hs u c = hs := by
  unfold handKeys at h
  unfold pushHand
  induction hs with
  | nil => rfl
  | cons p t ih =>
    simp only [List.map_cons, List.mem_cons] at h
    push_neg at h
    have h1 : ¬(p.1 = u) := fun hh => h.1 hh.symm
    simp [h1, ih h.2]

theorem handOf_pushHand_self (hs : Hands) (u : String) (c : Card)
    (hu : u ∈ handKeys hs) :
    handOf (pushHand hs u c) u = handOf hs u ++ [c] := by
  unfold handKeys at hu
  unfold handOf pushHand
  induction hs with
  | nil => simp at hu
  | cons p t ih =>
    by_cases h : p.1 = u
    · simp [List.find?, h]
    · simp only [List.map_cons, List.mem_cons] at hu
      rcases hu with hu | hu
      · exact absurd hu.symm h
      · simp only [List.map_cons, if_neg h]
        rw [List.find?_cons_of_neg _ (by simpa using h),
          List.find?_cons_of_neg _ (by simpa using h)]
        exact ih hu

theorem handOf_pushHand_other (hs : Hands) (u v : String) (c : Card)
    (h : v ≠ u) : handOf (pushHand hs u c) v = handOf hs v := by
  induction hs with
  | nil => rfl
  | cons p t ih =>
    have hcons : pushHand (p :: t) u c
        = (if p.1 = u then (p.1, p.2 ++ [c]) else p) :: pushHand t u c := rfl
    rw [hcons]
    by_cases hv : p.1 = v
    · have hpu : ¬(p.1 = u) := fun hh => h (by rw [← hv, hh])
      rw [if_neg hpu]
      unfold handOf
      rw [List.find?_cons_of_pos _ (by simpa using hv),
        List.find?_cons_of_pos _ (by simpa using hv)]
    · by_cases hpu : p.1 = u
      · rw [if_pos hpu]
        unfold handOf
        rw [List.find?_cons_of_neg _ (by simpa using hv),
          List.find?_cons_of_neg _ (by simpa using hv)]
        exact ih
      · rw [if_neg hpu]
        unfold handOf
        rw [List.find?_cons_of_neg _ (by simpa using hv),
          List.find?_cons_of_neg _ (by simpa using hv)]
        exact ih

theorem handOf_of_mem (hs : Hands) (q : String × List Card)
    (hnd : (handKeys hs).Nodup) (hq : q ∈ hs) : handOf hs q.1 = q.2 := by
  unfold handKeys at hnd
  induction hs with
  | nil => simp at hq
  | cons p t ih =>
    simp only [List.map_cons, List.nodup_cons] at hnd
    rcases List.mem_cons.mp hq with h | h
    · subst h
      unfold handOf
      simp [List.find?]
    · have hne : ¬(p.1 = q.1) := by
        intro he
        exact hnd.1 (he ▸ (List.mem_map.mpr ⟨q, h, rfl⟩))
      unfold handOf
      rw [List.find?_cons_of_neg _ (by simpa using hne)]
      exact ih hnd.2 h

theorem handsCards_pushHand (hs : Hands) (u : String) (c : Card)
    (hnd : (handKeys hs).Nodup) (hu : u ∈ handKeys hs) :
    (handsCards (pushHand hs u c)).Perm (c :: handsCards hs) := by
  induction hs with
  | nil => simp [handKeys] at hu
  | cons p t ih =>
    have hkeys : handKeys (p :: t) = p.1 :: handKeys t := rfl
    rw [hkeys] at hnd hu
    simp only [List.nodup_cons] at hnd
    have hcons : pushHand (p :: t) u c
        = (if p.1 = u then (p.1, p.2 ++ [c]) else p) :: pushHand t u c := rfl
    by_cases h : p.1 = u
    · have hnm : u ∉ handKeys t := h ▸ hnd.1
      rw [hcons, if_pos h, pushHand_not_mem t u c hnm]
      show ((p.2 ++ [c]) ++ handsCards t).Perm (c :: (p.2 ++ handsCards t))
      rw [List.append_assoc]
      exact List.perm_middle
    · rcases List.mem_cons.mp hu with hu1 | hu2
      · exact absurd hu1.symm h
      · rw [hcons, if_neg h]
        show (p.2 ++ handsCards (pushHand t u c)).Perm (c :: (p.2 ++ handsCards t))
        exact ((ih hnd.2 hu2).append_left p.2).trans List.perm_middle

theorem dealOne_keys (st : Hands × List Card) (u : String) :
    handKeys (dealOne st u).1 = handKeys st.1 := by
  unfold dealOne
  cases h : st.2.getLast? with
  | none => rfl
  | some c => exact pushHand_keys st.1 u c

theorem dealOne_deck_len (st : Hands × List Card) (u : String) :
    (dealOne st u).2.length = st.2.length - 1 := by
  unfold dealOne
  cases h : st.2.getLast? with
  | none =>
    have : st.2 = [] := List.getLast?_eq_none_iff.mp h
    simp [this]
  | some c => simp [List.length_dropLast]

theorem dealRound_eq (w : String) (rest : List String) (st : Hands × List Card) :
    dealRound (w :: rest) st = dealRound rest (dealOne st w) := rfl

theorem dealRound_keys (uids : List String) (st : Hands × List Card) :
    handKeys (dealRound uids st).1 = handKeys st.1 := by
  induction uids generalizing st with
  | nil => rfl
  | cons w rest ih =>
    rw [dealRound_eq, ih, dealOne_keys]

theorem dealRound_deck_len (uids : List String) (st : Hands × List Card) :
    (dealRound uids st).2.length = st.2.length - uids.length := by
  induction uids generalizing st with
  | nil => rfl
  | cons w rest ih =>
    rw [dealRound_eq, ih, dealOne_deck_len]
    simp only [List.length_cons]
    omega

theorem dealRound_handOf_len (uids : List String) (st : Hands × List Card)
    (hmem : ∀ x ∈ uids, x ∈ handKeys st.1) (hlen : uids.length ≤ st.2.length)
    (v : String) :
    (handOf (dealRound uids st).1 v).length
      = (handOf st.1 v).length + uids.count v := by
  induction uids generalizing st with
  | nil => simp [dealRound, dealOne]
  | cons w rest ih =>
    have hne : st.2 ≠ [] := by
      intro hnil
      rw [hnil] at hlen
      simp at hlen
    have hlast : st.2.getLast? = some (st.2.getLast hne) :=
      List.getLast?_eq_getLast st.2 hne
    have hd1 : dealOne st w = (pushHand st.1 w (st.2.getLast hne), st.2.dropLast) := by
      unfold dealOne
      rw [hlast]
    rw [dealRound_eq]
    have hmem2 : ∀ x ∈ rest, x ∈ handKeys (dealOne st w).1 := by
      intro x hx
      rw [dealOne_keys]
      exact hmem x (List.mem_cons_of_mem w hx)
    have hlen2 : rest.length ≤ (dealOne st w).2.length := by
      rw [dealOne_deck_len]
      simp only [List.length_cons] at hlen
      omega
    rw [ih (dealOne st w) hmem2 hlen2, hd1]
    by_cases hv : v = w
    · subst hv
      rw [handOf_pushHand_self st.1 v _ (hmem v (List.mem_cons_self v rest))]
      simp [List.count_cons]
      omega
    · rw [handOf_pushHand_other st.1 w v _ hv]
      have : ¬(w == v) = true := by simpa using fun hh => hv hh.symm
      simp [List.count_cons, this]

theorem dealRound_cards_perm (uids : List String) (st : Hands × List Card)
    (hnd : (handKeys st.1).Nodup) (hmem : ∀ x ∈ uids, x ∈ handKeys st.1)
    (hlen : uids.length ≤ st.2.length) :
    (handsCards (dealRound uids st).1 ++ (dealRound uids st).2).Perm
      (handsCards st.1 ++ st.2) := by
  induction uids generalizing st with
  | nil => simp [dealRound]
  | cons w rest ih =>
    have hne : st.2 ≠ [] := by
      intro hnil
      rw [hnil] at hlen
      simp at hlen
    have hlast : st.2.getLast? = some (st.2.getLast hne) :=
      List.getLast?_eq_getLast st.2 hne
    have hd1 : dealOne st w = (pushHand st.1 w (st.2.getLast hne), st.2.dropLast) := by
      unfold dealOne
      rw [hlast]
    have hnd2 : (handKeys (dealOne st w).1).Nodup := by
      rw [dealOne_keys]; exact hnd
    have hmem2 : ∀ x ∈ rest, x ∈ handKeys (dealOne st w).1 := by
      intro x hx
      rw [dealOne_keys]
      exact hmem x (List.mem_cons_of_mem w hx)
    have hlen2 : rest.length ≤ (dealOne st w).2.length := by
      rw [dealOne_deck_len]
      simp only [List.length_cons] at hlen
      omega
    rw [dealRound_eq]
    have hpush := handsCards_pushHand st.1 w (st.2.getLast hne) hnd
      (hmem w (List.mem_cons_self w rest))
    have hsplit : st.2.dropLast ++ [st.2.getLast hne] = st.2 :=
      List.dropLast_append_getLast hne
    have hre : handsCards st.1 ++ st.2
        = (handsCards st.1 ++ st.2.dropLast) ++ [st.2.getLast hne] := by
      rw [List.append_assoc, hsplit]
    have step2 : (handsCards (dealOne st w).1 ++ (dealOne st w).2).Perm
        (handsCards st.1 ++ st.2) := by
      rw [hd1, hre]
      exact (hpush.append_right st.2.dropLast).trans
        (List.perm_append_singleton _ _).symm
    exact (ih (dealOne st w) hnd2 hmem2 hlen2).trans step2

theorem foldl_range_const {α : Type} (f : α → α) (k : Nat) (init : α) :
    (List.range k).foldl (fun st _ => f st) init = f^[k] init := by
  induction k with
  | zero => rfl
  | succ n ih =>
    rw [List.range_succ, List.foldl_append, ih, Function.iterate_succ_apply']
    rfl

theorem iterRound_keys (uids : List String) (k : Nat) (st : Hands × List Card) :
    handKeys ((fun s => dealRound uids s)^[k] st).1 = handKeys st.1 := by
  induction k with
  | zero => rfl
  | succ n ih =>
    rw [Function.iterate_succ_apply', dealRound_keys, ih]

theorem iterRound_deck_len (uids : List String) (k : Nat) (st : Hands × List Card) :
    ((fun s => dealRound uids s)^[k] st).2.length
      = st.2.length - k * uids.length := by
  induction k with
  | zero => simp
  | succ n ih =>
    rw [Function.iterate_succ_apply', dealRound_deck_len, ih]
    have hmul : (n + 1) * uids.length = n * uids.length + uids.length := by ring
    omega

theorem iterRound_handOf_len (uids : List String) (k : Nat)
    (st : Hands × List Card) (hmem : ∀ x ∈ uids, x ∈ handKeys st.1) (v : String) :
    k * uids.length ≤ st.2.length →
    (handOf ((fun s => dealRound uids s)^[k] st).1 v).length
      = (handOf st.1 v).length + k * uids.count v := by
  induction k with
  | zero =>
    intro _
    simp
  | succ n ih =>
    intro hlen
    have hstep : (n + 1) * uids.length = n * uids.length + uids.length := by ring
    have hlenn : n * uids.length ≤ st.2.length := by omega
    have hmem2 : ∀ x ∈ uids, x ∈ handKeys ((fun s => dealRound uids s)^[n] st).1 := by
      intro x hx
      rw [iterRound_keys]
      exact hmem x hx
    have hlen2 : uids.length ≤ ((fun s => dealRound uids s)^[n] st).2.length := by
      rw [iterRound_deck_len]
      omega
    rw [Function.iterate_succ_apply',
      dealRound_handOf_len _ _ hmem2 hlen2 v, ih hlenn]
    have hmul : (n + 1) * uids.count v = n * uids.count v + uids.count v := by ring
    omega

theorem iterRound_cards_perm (uids : List String) (k : Nat)
    (st : Hands × List Card) (hnd : (handKeys st.1).Nodup)
    (hmem : ∀ x ∈ uids, x ∈ handKeys st.1) :
    k * uids.length ≤ st.2.length →
    (handsCards ((fun s => dealRound uids s)^[k] st).1
        ++ ((fun s => dealRound uids s)^[k] st).2).Perm
      (handsCards st.1 ++ st.2) := by
  induction k with
  | zero =>
    intro _
    simp
  | succ n ih =>
    intro hlen
    have hstep : (n + 1) * uids.length = n * uids.length + uids.length := by ring
    have hlenn : n * uids.length ≤ st.2.length := by omega
    have hnd2 : (handKeys ((fun s => dealRound uids s)^[n] st).1).Nodup := by
      rw [iterRound_keys]; exact hnd
    have hmem2 : ∀ x ∈ uids, x ∈ handKeys ((fun s => dealRound uids s)^[n] st).1 := by
      intro x hx
      rw [iterRound_keys]
      exact hmem x hx
    have hlen2 : uids.length ≤ ((fun s => dealRound uids s)^[n] st).2.length := by
      rw [iterRound_deck_len]
      omega
    rw [Function.iterate_succ_apply']
    exact (dealRound_cards_perm uids _ hnd2 hmem2 hlen2).trans (ih hlenn)

theorem handOf_init (uids : List String) (v : String) :
    handOf (uids.map (fun u => (u, ([] : List Card)))) v = [] := by
  induction uids with
  | nil => rfl
  | cons u t ih =>
    unfold handOf
    by_cases h : u = v
    · simp [List.find?, h]
    · rw [List.map_cons, List.find?_cons_of_neg _ (by simpa using h)]
      exact ih

theorem handsCards_init (uids : List String) :
    handsCards (uids.map (fun u => (u, ([] : List Card)))) = [] := by
  induction uids with
  | nil => rfl
  | cons u t ih =>
    show ([] : List Card) ++ handsCards (t.map (fun u => (u, ([] : List Card)))) = []
    rw [List.nil_append]
    exact ih

theorem initKeys (uids : List String) :
    handKeys (uids.map (fun u => (u, ([] : List Card)))) = uids := by
  induction uids with
  | nil => rfl
  | cons u t ih =>
    show u :: handKeys (t.map (fun u => (u, ([] : List Card)))) = u :: t
    rw [ih]

theorem dealAll_eq_iter (uids : List String) (deck : List Card) :
    dealAll uids deck
      = (fun s => dealRound uids s)^[7] (uids.map (fun u => (u, ([] : List Card))), deck) := by
  unfold dealAll
  exact foldl_range_const _ 7 _

theorem dealAll_keys (uids : List String) (deck : List Card) :
    handKeys (dealAll uids deck).1 = uids := by
  rw [dealAll_eq_iter, iterRound_keys]
  exact initKeys uids

theorem dealAll_deck_len (uids : List String) (deck : List Card) :
    (dealAll uids deck).2.length = deck.length - 7 * uids.length := by
  rw [dealAll_eq_iter, iterRound_deck_len]

theorem dealAll_handOf_len (uids : List String) (deck : List Card) (v : String)
    (hnd : uids.Nodup) (hv : v ∈ uids) (hlen : 7 * uids.length ≤ deck.length) :
    (handOf (dealAll uids deck).1 v).length = 7 := by
  rw [dealAll_eq_iter, iterRound_handOf_len uids 7 _ (by rw [initKeys]; exact fun x h => h) v hlen,
    handOf_init, List.count_eq_one_of_mem hnd hv]
  simp

theorem dealAll_cards_perm (uids : List String) (deck : List Card)
    (hnd : uids.Nodup) (hlen : 7 * uids.length ≤ deck.length) :
    (handsCards (dealAll uids deck).1 ++ (dealAll uids deck).2).Perm deck := by
  rw [dealAll_eq_iter]
  have h := iterRound_cards_perm uids 7 (uids.map (fun u => (u, ([] : List Card))), deck)
    (by rw [initKeys]; exact hnd) (by rw [initKeys]; exact fun x h => h) hlen
  rw [handsCards_init] at h
  simpa using h

/-! ## Helper lemmas: the bootstrap transaction -/

theorem initTx_noop (deck : List Card) (joined : List String) (now : Nat)
    (cur : GameState) (h : cur.stock ≠ [] ∨ cur.discard ≠ []) :
    initTx deck joined now cur = cur := by
  unfold initTx
  by_cases hph : cur.phase ≠ .playing
  · rw [if_pos hph]
  · rw [if_neg hph, if_pos]
    rcases h with h | h
    · exact Or.inl (List.length_pos.mpr h)
    · exact Or.inr (List.length_pos.mpr h)

theorem initTx_body (deck : List Card) (joined : List String) (now : Nat)
    (cur : GameState) (hph : cur.phase = Phase.playing)
    (hst : cur.stock = []) (hdc : cur.discard = []) :
    initTx deck joined now cur =
      { cur with
        stock := (dealAll joined deck).2.dropLast
        discard := rebasePile (dealAll joined deck).2.getLast? now
        headCardId := ((dealAll joined deck).2.getLast?).map (fun h => h.id)
        players := (dealAll joined deck).1.map (initPlayersMap cur)
        cardOrigins := (dealAll joined deck).1.foldl
          (fun m p => p.2.foldl (fun m c => setAssoc m c.id ⟨.stock, none⟩) m) []
        tableMelds := []
        turnUid := cur.turnUid.orElse (fun _ => joined.head?)
        step := .draw
        winnerUid := none
        endedAt := none } := by
  unfold initTx
  rw [if_neg (by simp [hph]), if_neg (by simp [hst, hdc])]

theorem map_fst_initPlayersMap (cur : GameState) (l : Hands) :
    (l.map (initPlayersMap cur)).map (fun q => q.1) = l.map (fun p => p.1) := by
  induction l with
  | nil => rfl
  | cons p t ih =>
    simp only [List.map_cons]
    rw [ih]
    rfl

theorem flatMap_hand_initPlayersMap (cur : GameState) (l : Hands) :
    (l.map (initPlayersMap cur)).flatMap (fun q => q.2.hand)
      = l.flatMap (fun p => p.2) := by
  induction l with
  | nil => rfl
  | cons p t ih =>
    simp only [List.map_cons, List.flatMap_cons]
    rw [ih]
    rfl

theorem init_playerKeys (deck : List Card) (joined : List String) (now : Nat)
    (cur : GameState) (hph : cur.phase = Phase.playing)
    (hst : cur.stock = []) (hdc : cur.discard = []) :
    playerKeys (initTx deck joined now cur) = joined := by
  rw [initTx_body deck joined now cur hph hst hdc]
  show ((dealAll joined deck).1.map (initPlayersMap cur)).map (fun q => q.1) = joined
  rw [map_fst_initPlayersMap]
  exact dealAll_keys joined deck

theorem init_hand_len (deck : List Card) (joined : List String) (now : Nat)
    (cur : GameState) (hnd : joined.Nodup) (hle : joined.length ≤ 4)
    (hdeck : deck.length = 52) (hph : cur.phase = Phase.playing)
    (hst : cur.stock = []) (hdc : cur.discard = []) :
    ∀ p ∈ (initTx deck joined now cur).players, p.2.hand.length = 7 := by
  rw [initTx_body deck joined now cur hph hst hdc]
  intro p hp
  simp only [List.mem_map] at hp
  obtain ⟨q, hq, rfl⟩ := hp
  show q.2.length = 7
  have hkq : q.1 ∈ joined := by
    rw [← dealAll_keys joined deck]
    exact List.mem_map.mpr ⟨q, hq, rfl⟩
  have hkeys : (handKeys (dealAll joined deck).1).Nodup := by
    rw [dealAll_keys]; exact hnd
  have := handOf_of_mem (dealAll joined deck).1 q hkeys hq
  rw [← this]
  exact dealAll_handOf_len joined deck q.1 hnd hkq (by omega)

theorem init_allCards_perm (deck : List Card) (joined : List String) (now : Nat)
    (cur : GameState) (hnd : joined.Nodup) (hle : joined.length ≤ 4)
    (hdeck : deck.length = 52) (hph : cur.phase = Phase.playing)
    (hst : cur.stock = []) (hdc : cur.discard = []) :
    (allCards (initTx deck joined now cur)).Perm deck := by
  have hlen : 7 * joined.length ≤ deck.length := by omega
  have hstocklen : (dealAll joined deck).2.length = deck.length - 7 * joined.length :=
    dealAll_deck_len joined deck
  have hne : (dealAll joined deck).2 ≠ [] := by
    intro hnil
    rw [hnil] at hstocklen
    simp at hstocklen
    omega
  have hlast : (dealAll joined deck).2.getLast? =
      some ((dealAll joined deck).2.getLast hne) :=
    List.getLast?_eq_getLast _ hne
  rw [initTx_body deck joined now cur hph hst hdc]
  show (((dealAll joined deck).1.map (initPlayersMap cur)).flatMap (fun p => p.2.hand)
      ++ (dealAll joined deck).2.dropLast
      ++ (rebasePile (dealAll joined deck).2.getLast? now).map toCardD
      ++ ([] : List Meld).flatMap (fun m => m.cards)).Perm deck
  rw [hlast, flatMap_hand_initPlayersMap]
  have hrb : (rebasePile (some ((dealAll joined deck).2.getLast hne)) now).map toCardD
      = [(dealAll joined deck).2.getLast hne] := rfl
  rw [hrb]
  show ((dealAll joined deck).1.flatMap (fun p => p.2)
      ++ (dealAll joined deck).2.dropLast
      ++ [(dealAll joined deck).2.getLast hne] ++ []).Perm deck
  rw [List.append_nil, List.append_assoc, List.dropLast_append_getLast hne]
  exact dealAll_cards_perm joined deck hnd hlen

theorem totalCards_eq_allCards (g : GameState) :
    totalCards g = (allCards g).length := by
  unfold totalCards allCards sumHands meldsLen
  rw [List.length_append, List.length_append, List.length_append,
    List.length_flatMap, List.length_flatMap, List.length_map]
  have h1 : (List.map (List.length ∘ fun p => p.2.hand) g.players)
      = g.players.map (fun p => p.2.hand.length) := rfl
  have h2 : (List.map (List.length ∘ fun m => m.cards) g.tableMelds)
      = g.tableMelds.map (fun m => m.cards.length) := rfl
  rw [h1, h2]

theorem init_totalCards (deck : List Card) (joined : List String) (now : Nat)
    (cur : GameState) (hnd : joined.Nodup) (hle : joined.length ≤ 4)
    (hdeck : deck.length = 52) (hph : cur.phase = Phase.playing)
    (hst : cur.stock = []) (hdc : cur.discard = []) :
    totalCards (initTx deck joined now cur) = 52 := by
  rw [totalCards_eq_allCards,
    List.Perm.length_eq (init_allCards_perm deck joined now cur hnd hle hdeck hph hst hdc),
    hdeck]

theorem init_stock_pos (deck : List Card) (joined : List String) (now : Nat)
    (cur : GameState) (hle : joined.length ≤ 4)
    (hdeck : deck.length = 52) (hph : cur.phase = Phase.playing)
    (hst : cur.stock = []) (hdc : cur.discard = []) :
    (initTx deck joined now cur).stock ≠ [] := by
  rw [initTx_body deck joined now cur hph hst hdc]
  show (dealAll joined deck).2.dropLast ≠ []
  have hstocklen : (dealAll joined deck).2.length = deck.length - 7 * joined.length :=
    dealAll_deck_len joined deck
  intro hnil
  have hlen0 := congrArg List.length hnil
  rw [List.length_dropLast] at hlen0
  simp at hlen0
  omega

/-! ## Helper lemmas: picking, descending sort, splicing -/

theorem pickLoop_some {hand : List Card} :
    ∀ {ids : List Nat} {cs : List Card} {idxs : List Nat},
    pickLoop hand ids = some (cs, idxs) →
    cs.length = ids.length ∧ idxs.length = ids.length ∧
      (∀ i ∈ idxs, i < hand.length) ∧ cs.map (fun c => c.id) = ids ∧
      (∀ i ∈ idxs, (hand.getD i default).id ∈ ids) := by
  intro ids
  induction ids with
  | nil =>
    intro cs idxs h
    unfold pickLoop at h
    injection h with h
    rw [Prod.mk.injEq] at h
    obtain ⟨h1, h2⟩ := h
    subst h1; subst h2
    refine ⟨rfl, rfl, by simp, rfl, by simp⟩
  | cons cid rest ih =>
    intro cs idxs h
    unfold pickLoop at h
    cases hf : findIndex (fun c => c.id = cid) hand with
    | none => rw [hf] at h; exact absurd h (by simp)
    | some idx =>
      rw [hf] at h
      cases hp : pickLoop hand rest with
      | none => rw [hp] at h; exact absurd h (by simp)
      | some pr =>
        rw [hp] at h
        obtain ⟨cs', idxs'⟩ := pr
        simp only [Option.some.injEq, Prod.mk.injEq] at h
        obtain ⟨h1, h2⟩ := h
        subst h1; subst h2
        obtain ⟨l1, l2, l3, l4, l5⟩ := ih hp
        obtain ⟨hidx, hgd⟩ := findIndex_some hf
        have hgid : (hand.getD idx default).id = cid := by
          simpa using hgd
        refine ⟨by simp [l1], by simp [l2], ?mem, ?ids, ?gin⟩
        case mem =>
          intro i hi
          rcases List.mem_cons.mp hi with h | h
          · subst h; exact hidx
          · exact l3 i h
        case ids =>
          simp only [List.map_cons, l4, hgid]
        case gin =>
          intro i hi
          rcases List.mem_cons.mp hi with h | h
          · subst h; rw [hgid]; exact List.mem_cons_self cid rest
          · exact List.mem_cons_of_mem cid (l5 i h)

theorem pickLoop_idx_nodup {hand : List Card} :
    ∀ {ids : List Nat} {cs : List Card} {idxs : List Nat},
    ids.Nodup → pickLoop hand ids = some (cs, idxs) → idxs.Nodup := by
  intro ids
  induction ids with
  | nil =>
    intro cs idxs _ h
    unfold pickLoop at h
    injection h with h
    rw [Prod.mk.injEq] at h
    rw [← h.2]
    exact List.nodup_nil
  | cons cid rest ih =>
    intro cs idxs hnd h
    unfold pickLoop at h
    cases hf : findIndex (fun c => c.id = cid) hand with
    | none => rw [hf] at h; exact absurd h (by simp)
    | some idx =>
      rw [hf] at h
      cases hp : pickLoop hand rest with
      | none => rw [hp] at h; exact absurd h (by simp)
      | some pr =>
        rw [hp] at h
        obtain ⟨cs', idxs'⟩ := pr
        simp only [Option.some.injEq, Prod.mk.injEq] at h
        obtain ⟨h1, h2⟩ := h
        subst h1; subst h2
        simp only [List.nodup_cons] at hnd ⊢
        refine ⟨?notmem, ih hnd.2 hp⟩
        case notmem =>
          intro hmem
          obtain ⟨_, _, _, _, l5⟩ := pickLoop_some hp
          obtain ⟨_, hgd⟩ := findIndex_some hf
          have : (hand.getD idx default).id = cid := by simpa using hgd
          exact hnd.1 (this ▸ l5 idx hmem)

theorem insertDesc_perm (x : Nat) (l : List Nat) :
    (insertDesc x l).Perm (x :: l) := by
  induction l with
  | nil => exact List.Perm.refl _
  | cons y t ih =>
    unfold insertDesc
    by_cases h : x ≥ y
    · rw [if_pos h]
    · rw [if_neg h]
      exact (ih.cons y).trans (List.Perm.swap x y t)

theorem sortDesc_perm (l : List Nat) : (sortDesc l).Perm l := by
  induction l with
  | nil => exact List.Perm.refl _
  | cons x t ih =>
    show (insertDesc x (sortDesc t)).Perm (x :: t)
    exact (insertDesc_perm x (sortDesc t)).trans (ih.cons x)

theorem insertDesc_sorted (x : Nat) (l : List Nat)
    (h : l.Pairwise (· ≥ ·)) : (insertDesc x l).Pairwise (· ≥ ·) := by
  induction l with
  | nil => simp [insertDesc]
  | cons y t ih =>
    unfold insertDesc
    rcases List.pairwise_cons.mp h with ⟨hy, ht⟩
    by_cases hx : x ≥ y
    · rw [if_pos hx]
      refine List.pairwise_cons.mpr ⟨?ge, h⟩
      case ge =>
        intro b hb
        rcases List.mem_cons.mp hb with hb | hb
        · subst hb; exact hx
        · exact le_trans (hy b hb) hx
    · rw [if_neg hx]
      refine List.pairwise_cons.mpr ⟨?ge, ih ht⟩
      case ge =>
        intro b hb
        rcases (insertDesc_perm x t).mem_iff.mp hb with hb2
        rcases List.mem_cons.mp hb2 with hb3 | hb3
        · subst hb3; omega
        · exact hy b hb3

theorem sortDesc_sorted (l : List Nat) : (sortDesc l).Pairwise (· ≥ ·) := by
  induction l with
  | nil => simp [sortDesc]
  | cons x t ih => exact insertDesc_sorted x (sortDesc t) ih

theorem sortDesc_strict (l : List Nat) (h : l.Nodup) :
    (sortDesc l).Pairwise (· > ·) := by
  have hnd : (sortDesc l).Nodup := ((sortDesc_perm l).nodup_iff).mpr h
  exact ((sortDesc_sorted l).and hnd).imp (fun hab => by omega)

theorem spliceAll_length : ∀ (idxs : List Nat) (l : List Card),
    idxs.Pairwise (· > ·) → (∀ i ∈ idxs, i < l.length) →
    (spliceAll l idxs).length + idxs.length = l.length := by
  intro idxs
  induction idxs with
  | nil =>
    intro l _ _
    simp [spliceAll]
  | cons i rest ih =>
    intro l hpw hlt
    rcases List.pairwise_cons.mp hpw with ⟨hgt, hrest⟩
    have hi : i < l.length := hlt i (List.mem_cons_self i rest)
    have hel : (l.eraseIdx i).length = l.length - 1 := by
      rw [List.length_eraseIdx, if_pos hi]
    have hstep : spliceAll l (i :: rest) = spliceAll (l.eraseIdx i) rest := rfl
    have hlt2 : ∀ j ∈ rest, j < (l.eraseIdx i).length := by
      intro j hj
      have := hgt j hj
      omega
    rw [hstep]
    have := ih (l.eraseIdx i) hrest hlt2
    simp only [List.length_cons]
    omega

/-! ## Helper lemmas: key preservation and card conservation per action -/

theorem drawStockTx_keys (uid : String) (cur : GameState) :
    playerKeys (drawStockTx uid cur) = playerKeys cur := by
  unfold drawStockTx
  split_ifs with h1 h2 h3
  any_goals rfl
  cases hx : cur.stock.getLast? with
  | none => rfl
  | some card =>
    cases hy : lookupPlayer cur.players uid with
    | none => rfl
    | some q =>
      show (updatePlayer cur.players uid (fun p =>
          { p with hand := p.hand ++ [card],
                   lastTurnTookDiscardFromUid := none })).map (fun p => p.1)
        = cur.players.map (fun p => p.1)
      exact updatePlayer_keys cur.players uid _

theorem drawStockTx_total (uid : String) (cur : GameState)
    (hnd : (playerKeys cur).Nodup) :
    totalCards (drawStockTx uid cur) = totalCards cur := by
  unfold drawStockTx
  split_ifs with h1 h2 h3
  any_goals rfl
  cases hx : cur.stock.getLast? with
  | none => rfl
  | some card =>
    cases hy : lookupPlayer cur.players uid with
    | none => rfl
    | some q =>
      have hsum := sumHands_updatePlayer cur.players uid
        (fun p => { p with hand := p.hand ++ [card],
                           lastTurnTookDiscardFromUid := none }) q hnd hy
      simp only [List.length_append, List.length_cons, List.length_nil] at hsum
      have hne : cur.stock ≠ [] := by
        intro h0
        rw [h0] at hx
        simp at hx
      have hpos : 0 < cur.stock.length := List.length_pos.mpr hne
      show sumHands (updatePlayer cur.players uid (fun p =>
            { p with hand := p.hand ++ [card],
                     lastTurnTookDiscardFromUid := none }))
          + cur.stock.dropLast.length
          + cur.discard.length + meldsLen cur.tableMelds
          = sumHands cur.players + cur.stock.length + cur.discard.length
            + meldsLen cur.tableMelds
      rw [List.length_dropLast]
      omega

theorem takeTopDiscardTx_keys (uid : String) (cur : GameState) :
    playerKeys (takeTopDiscardTx uid cur) = playerKeys cur := by
  unfold takeTopDiscardTx
  split_ifs with h1 h2 h3 h4
  any_goals rfl
  cases hx : cur.discard.getLast? with
  | none => rfl
  | some card =>
    cases hy : lookupPlayer cur.players uid with
    | none => rfl
    | some q =>
      show (updatePlayer cur.players uid (fun p =>
          { p with hand := p.hand ++ [toCardD card],
                   lastTurnTookDiscardFromUid := card.fromUid })).map (fun p => p.1)
        = cur.players.map (fun p => p.1)
      exact updatePlayer_keys cur.players uid _

theorem takeTopDiscardTx_total (uid : String) (cur : GameState)
    (hnd : (playerKeys cur).Nodup) :
    totalCards (takeTopDiscardTx uid cur) = totalCards cur := by
  unfold takeTopDiscardTx
  split_ifs with h1 h2 h3 h4
  any_goals rfl
  cases hx : cur.discard.getLast? with
  | none => rfl
  | some card =>
    cases hy : lookupPlayer cur.players uid with
    | none => rfl
    | some q =>
      have hsum := sumHands_updatePlayer cur.players uid
        (fun p => { p with hand := p.hand ++ [toCardD card],
                           lastTurnTookDiscardFromUid := card.fromUid }) q hnd hy
      simp only [List.length_append, List.length_cons, List.length_nil] at hsum
      have hne : cur.discard ≠ [] := by
        intro h0
        rw [h0] at hx
        simp at hx
      have hpos : 0 < cur.discard.length := List.length_pos.mpr hne
      show sumHands (updatePlayer cur.players uid (fun p =>
            { p with hand := p.hand ++ [toCardD card],
                     lastTurnTookDiscardFromUid := card.fromUid }))
          + cur.stock.length + cur.discard.dropLast.length + meldsLen cur.tableMelds
          = sumHands cur.players + cur.stock.length + cur.discard.length
            + meldsLen cur.tableMelds
      rw [List.length_dropLast]
      omega

theorem eatHeadTx_keys (uid : String) (now : Nat) (cur : GameState) :
    playerKeys (eatHeadTx uid now cur) = playerKeys cur := by
  unfold eatHeadTx
  split_ifs with h1 h2 h3
  any_goals rfl
  cases hy : lookupPlayer cur.players uid with
  | none => rfl
  | some q =>
    show (updatePlayer cur.players uid (fun p =>
        { p with hand := p.hand ++ cur.discard.map toCardD,
                 lastTurnTookDiscardFromUid := none })).map (fun p => p.1)
      = cur.players.map (fun p => p.1)
    exact updatePlayer_keys cur.players uid _

theorem rebasePile_length (o : Option Card) (now : Nat) :
    (rebasePile o now).length = if o.isSome then 1 else 0 := by
  cases o <;> rfl

theorem eatHeadTx_total (uid : String) (now : Nat) (cur : GameState)
    (hnd : (playerKeys cur).Nodup) :
    totalCards (eatHeadTx uid now cur) = totalCards cur := by
  unfold eatHeadTx
  split_ifs with h1 h2 h3
  any_goals rfl
  cases hy : lookupPlayer cur.players uid with
  | none => rfl
  | some q =>
    have hsum := sumHands_updatePlayer cur.players uid
      (fun p => { p with hand := p.hand ++ cur.discard.map toCardD,
                         lastTurnTookDiscardFromUid := none }) q hnd hy
    simp only [List.length_append, List.length_map] at hsum
    show sumHands (updatePlayer cur.players uid (fun p =>
          { p with hand := p.hand ++ cur.discard.map toCardD,
                   lastTurnTookDiscardFromUid := none }))
        + cur.stock.dropLast.length + (rebasePile cur.stock.getLast? now).length
        + meldsLen cur.tableMelds
        = sumHands cur.players + cur.stock.length + cur.discard.length
          + meldsLen cur.tableMelds
    rw [List.length_dropLast, rebasePile_length]
    cases hx : cur.stock.getLast? with
    | none =>
      have hstock : cur.stock = [] := List.getLast?_eq_none_iff.mp hx
      rw [hstock]
      have hite : (if (none : Option Card).isSome = true then 1 else 0) = 0 := rfl
      rw [hite]
      simp only [List.length_nil]
      omega
    | some card =>
      have hne : cur.stock ≠ [] := by
        intro h0
        rw [h0] at hx
        simp at hx
      have hpos : 0 < cur.stock.length := List.length_pos.mpr hne
      have hite : (if (some card).isSome = true then 1 else 0) = 1 := rfl
      rw [hite]
      omega

theorem discardTx_keys (uid : String) (cardId now : Nat) (cur : GameState) :
    playerKeys (discardTx uid cardId now cur) = playerKeys cur := by
  unfold discardTx
  split_ifs with h1 h2 h3
  any_goals rfl
  split
  · rfl
  next q hy =>
    unfold discardTxCore
    split
    · rfl
    next idx hf =>
      show (updatePlayer cur.players uid (fun p =>
          { p with hand := p.hand.eraseIdx idx })).map (fun p => p.1)
        = cur.players.map (fun p => p.1)
      exact updatePlayer_keys cur.players uid _

theorem discardTx_total (uid : String) (cardId now : Nat) (cur : GameState)
    (hnd : (playerKeys cur).Nodup) :
    totalCards (discardTx uid cardId now cur) = totalCards cur := by
  unfold discardTx
  split_ifs with h1 h2 h3
  any_goals rfl
  split
  · rfl
  next q hy =>
    unfold discardTxCore
    split
    · rfl
    next idx hf =>
      have hidx := (findIndex_some hf).1
      have hsum := sumHands_updatePlayer cur.players uid
        (fun p => { p with hand := p.hand.eraseIdx idx }) q hnd hy
      have herase : ((fun (p : GamePlayer) =>
            { p with hand := p.hand.eraseIdx idx }) q).hand.length
          = q.hand.length - 1 := by
        show (q.hand.eraseIdx idx).length = q.hand.length - 1
        rw [List.length_eraseIdx, if_pos hidx]
      rw [herase] at hsum
      show sumHands (updatePlayer cur.players uid (fun p =>
            { p with hand := p.hand.eraseIdx idx }))
          + cur.stock.length
          + (cur.discard ++
              [(⟨(q.hand.getD idx default).id, (q.hand.getD idx default).r,
                (q.hand.getD idx default).s, some uid, now⟩ : DiscardCard)]).length
          + meldsLen cur.tableMelds
          = sumHands cur.players + cur.stock.length + cur.discard.length
            + meldsLen cur.tableMelds
      rw [List.length_append]
      simp only [List.length_cons, List.length_nil]
      omega

theorem layMeldTx_keys (uid : String) (ids : List Nat) (meldId now : Nat)
    (cur : GameState) :
    playerKeys (layMeldTx uid ids meldId now cur) = playerKeys cur := by
  unfold layMeldTx
  split_ifs with h1 h2 h3 h4
  any_goals rfl
  split
  · rfl
  next q hy =>
    unfold layMeldTxCore
    split
    · rfl
    next picked pickedIdx hp =>
      split
      · rfl
      next kind hc =>
        split_ifs with h5
        any_goals rfl
        show (updatePlayer cur.players uid (fun p =>
            { p with hand := spliceAll q.hand (sortDesc pickedIdx),
                     hasMelded := true,
                     scoredCards := p.scoredCards ++ picked })).map (fun p => p.1)
          = cur.players.map (fun p => p.1)
        exact updatePlayer_keys cur.players uid _

theorem meldsLen_append_one (ms : List Meld) (m : Meld) :
    meldsLen (ms ++ [m]) = meldsLen ms + m.cards.length := by
  unfold meldsLen
  rw [List.map_append, List.sum_append]
  rfl

theorem layMeldTx_total (uid : String) (ids : List Nat) (meldId now : Nat)
    (cur : GameState) (hnd : (playerKeys cur).Nodup) (hwf : ids.Nodup) :
    totalCards (layMeldTx uid ids meldId now cur) = totalCards cur := by
  unfold layMeldTx
  split_ifs with h1 h2 h3 h4
  any_goals rfl
  split
  · rfl
  next q hy =>
    unfold layMeldTxCore
    split
    · rfl
    next picked pickedIdx hp =>
      split
      · rfl
      next kind hc =>
        split_ifs with h5
        any_goals rfl
        obtain ⟨hl1, hl2, hl3, hl4, hl5⟩ := pickLoop_some hp
        have hidxnd : pickedIdx.Nodup := pickLoop_idx_nodup hwf hp
        have hsorted : (sortDesc pickedIdx).Pairwise (· > ·) :=
          sortDesc_strict pickedIdx hidxnd
        have hmem : ∀ i ∈ sortDesc pickedIdx, i < q.hand.length := by
          intro i hi
          exact hl3 i ((sortDesc_perm pickedIdx).mem_iff.mp hi)
        have hsplice := spliceAll_length (sortDesc pickedIdx) q.hand hsorted hmem
        have hslen : (sortDesc pickedIdx).length = pickedIdx.length :=
          (sortDesc_perm pickedIdx).length_eq
        have hsum := sumHands_updatePlayer cur.players uid
          (fun p => { p with hand := spliceAll q.hand (sortDesc pickedIdx),
                             hasMelded := true,
                             scoredCards := p.scoredCards ++ picked }) q hnd hy
        have hpl : picked.length = ids.length := hl1
        show sumHands (updatePlayer cur.players uid (fun p =>
              { p with hand := spliceAll q.hand (sortDesc pickedIdx),
                       hasMelded := true,
                       scoredCards := p.scoredCards ++ picked }))
            + cur.stock.length + cur.discard.length
            + meldsLen (cur.tableMelds ++ [⟨meldId, uid, kind, picked, now⟩])
            = sumHands cur.players + cur.stock.length + cur.discard.length
              + meldsLen cur.tableMelds
        rw [meldsLen_append_one]
        have hfq : ((fun (p : GamePlayer) =>
              { p with hand := spliceAll q.hand (sortDesc pickedIdx),
                       hasMelded := true,
                       scoredCards := p.scoredCards ++ picked }) q).hand.length
            = (spliceAll q.hand (sortDesc pickedIdx)).length := rfl
        rw [hfq] at hsum
        show _ + cur.stock.length + cur.discard.length
            + (meldsLen cur.tableMelds + picked.length) = _
        omega

/-! ## Helper lemmas: the meld classifier -/

theorem consecChain_range' : ∀ (n a : Nat), consecChain (List.range' a n) = true := by
  intro n
  induction n with
  | zero => intro a; rfl
  | succ m ih =>
    intro a
    show consecChain (a :: List.range' (a + 1) m) = true
    cases m with
    | zero => rfl
    | succ k =>
      show consecChain (a :: (a + 1) :: List.range' (a + 2) k) = true
      unfold consecChain
      rw [Bool.and_eq_true, decide_eq_true_eq]
      exact ⟨rfl, ih (a + 1)⟩

theorem consecChain_iff (l : List Nat) :
    consecChain l = true ↔ ∃ a, l = List.range' a l.length := by
  induction l with
  | nil =>
    constructor
    · intro _; exact ⟨0, rfl⟩
    · intro _; rfl
  | cons x t ih =>
    cases t with
    | nil =>
      constructor
      · intro _; exact ⟨x, rfl⟩
      · intro _; rfl
    | cons y t2 =>
      constructor
      · intro h
        unfold consecChain at h
        rw [Bool.and_eq_true, decide_eq_true_eq] at h
        obtain ⟨hxy, hch⟩ := h
        obtain ⟨a, ha⟩ := ih.mp hch
        rw [show List.range' a ((y :: t2).length)
            = a :: List.range' (a + 1) t2.length from rfl] at ha
        injection ha with h1 h2
        subst h1
        subst hxy
        refine ⟨x, ?e⟩
        show x :: (x + 1) :: t2 = List.range' x (t2.length + 1 + 1)
        rw [List.range'_succ, List.range'_succ, ← h2]
      · intro ⟨a, ha⟩
        rw [ha]
        exact consecChain_range' _ a

theorem dedup_len_iff {α : Type} [DecidableEq α] (l : List α) :
    l.dedup.length = l.length ↔ l.Nodup := by
  constructor
  · intro h
    have heq : l.dedup = l := (List.dedup_sublist l).eq_of_length h
    exact List.dedup_eq_self.mp heq
  · intro h
    rw [List.dedup_eq_self.mpr h]

theorem isValidSet_iff (cards : List Card) :
    isValidSet cards = true ↔ specIsSet cards := by
  cases cards with
  | nil =>
    constructor
    · intro h
      exact absurd h (by decide)
    · intro h
      obtain ⟨h3, _⟩ := h
      simp at h3
  | cons c0 rest =>
    unfold isValidSet specIsSet
    by_cases hlen : (c0 :: rest).length < 3
    · rw [if_pos hlen]
      constructor
      · intro h
        exact absurd h (by simp)
      · intro h
        obtain ⟨h3, _⟩ := h
        omega
    · rw [if_neg hlen]
      rw [Bool.and_eq_true, List.all_eq_true]
      constructor
      · intro ⟨hall, hdedup⟩
        refine ⟨by omega, ⟨c0.r, ?rk⟩, ?pw⟩
        case rk =>
          intro c hc
          exact decide_eq_true_eq.mp (hall c hc)
        case pw =>
          have hnd : ((c0 :: rest).map (fun c => c.s)).Nodup :=
            (dedup_len_iff _).mp (by
              rw [List.length_map]
              exact decide_eq_true_eq.mp hdedup)
          exact List.pairwise_map.mp hnd
      · intro ⟨_, ⟨r, hr⟩, hpw⟩
        constructor
        · intro c hc
          rw [decide_eq_true_eq, hr c hc, hr c0 (List.mem_cons_self c0 rest)]
        · rw [decide_eq_true_eq]
          have hnd : ((c0 :: rest).map (fun c => c.s)).Nodup :=
            List.pairwise_map.mpr hpw
          rw [(dedup_len_iff _).mpr hnd, List.length_map]

theorem sorted_le_range' (a n : Nat) :
    List.Sorted (· ≤ ·) (List.range' a n) := by
  exact (List.pairwise_lt_range' a n).imp (fun h => le_of_lt h)

theorem isValidRun_iff (cards : List Card) :
    isValidRun cards = true ↔ specIsRun cards := by
  cases cards with
  | nil =>
    constructor
    · intro h
      exact absurd h (by decide)
    · intro h
      obtain ⟨h3, _⟩ := h
      simp at h3
  | cons c0 rest =>
    unfold isValidRun specIsRun
    by_cases hlen : (c0 :: rest).length < 3
    · rw [if_pos hlen]
      constructor
      · intro h
        exact absurd h (by simp)
      · intro h
        obtain ⟨h3, _⟩ := h
        omega
    · rw [if_neg hlen]
      rw [Bool.and_eq_true, List.all_eq_true]
      have hslen : (((c0 :: rest).map (fun c => c.r)).insertionSort
          (· ≤ ·)).length = (c0 :: rest).length := by
        rw [(List.perm_insertionSort (· ≤ ·) _).length_eq, List.length_map]
      constructor
      · intro hh
        obtain ⟨hall, hchain⟩ := hh
        obtain ⟨a, ha⟩ := (consecChain_iff _).mp hchain
        rw [hslen] at ha
        have hsuit : ∃ s, ∀ c ∈ (c0 :: rest), c.s = s :=
          ⟨c0.s, fun c hc => decide_eq_true_eq.mp (hall c hc)⟩
        have hpm : ((c0 :: rest).map (fun c => c.r)).Perm
            (List.range' a ((c0 :: rest).length)) := by
          rw [← ha]
          exact (List.perm_insertionSort (· ≤ ·) _).symm
        exact ⟨by omega, hsuit, a, hpm⟩
      · intro ⟨_, ⟨s, hs⟩, a, hperm⟩
        constructor
        · intro c hc
          rw [decide_eq_true_eq, hs c hc, hs c0 (List.mem_cons_self c0 rest)]
        · rw [consecChain_iff]
          refine ⟨a, ?e⟩
          rw [hslen]
          refine List.eq_of_perm_of_sorted
            ((List.perm_insertionSort (· ≤ ·) _).trans hperm)
            (List.sorted_insertionSort (· ≤ ·) _) (sorted_le_range' a _)

theorem run_not_set (cards : List Card) (h : isValidRun cards = true) :
    isValidSet cards = false := by
  rw [← Bool.not_eq_true]
  intro hset
  obtain ⟨hlen, ⟨r, hr⟩, _⟩ := (isValidSet_iff cards).mp hset
  obtain ⟨_, _, a, hperm⟩ := (isValidRun_iff cards).mp h
  have hmem1 : a ∈ cards.map (fun c => c.r) := by
    rw [hperm.mem_iff, List.mem_range'_1]
    omega
  have hmem2 : a + 1 ∈ cards.map (fun c => c.r) := by
    rw [hperm.mem_iff, List.mem_range'_1]
    omega
  obtain ⟨c1, hc1, he1⟩ := List.mem_map.mp hmem1
  obtain ⟨c2, hc2, he2⟩ := List.mem_map.mp hmem2
  have := hr c1 hc1
  have := hr c2 hc2
  omega

theorem classify_set_iff (cards : List Card) :
    classifyMeld cards = some .set ↔ isValidSet cards = true := by
  unfold classifyMeld
  by_cases h : isValidSet cards = true
  · rw [if_pos h]
    simp [h]
  · rw [if_neg h]
    constructor
    · intro hc
      by_cases h2 : isValidRun cards = true
      · rw [if_pos h2] at hc
        exact absurd hc (by simp)
      · rw [if_neg h2] at hc
        exact absurd hc (by simp)
    · intro hc
      exact absurd hc h

theorem classify_run_iff (cards : List Card) :
    classifyMeld cards = some .run ↔ isValidRun cards = true := by
  unfold classifyMeld
  constructor
  · intro hc
    by_cases h : isValidSet cards = true
    · rw [if_pos h] at hc
      exact absurd hc (by simp)
    · rw [if_neg h] at hc
      by_cases h2 : isValidRun cards = true
      · exact h2
      · rw [if_neg h2] at hc
        exact absurd hc (by simp)
  · intro hr
    rw [if_neg (by rw [run_not_set cards hr]; simp), if_pos hr]

/-! ## Helper lemmas: turn order, deduplication, seats -/

theorem indexOf_of_get? (l : List String) (i : Nat) (u : String)
    (hnd : l.Nodup) (h : l.get? i = some u) : l.indexOf u = i := by
  induction l generalizing i with
  | nil => simp at h
  | cons x t ih =>
    rcases List.nodup_cons.mp hnd with ⟨hx, ht⟩
    cases i with
    | zero =>
      have : x = u := by simpa using h
      subst this
      exact List.indexOf_cons_self x t
    | succ j =>
      have hj : t.get? j = some u := by simpa using h
      have hmem : u ∈ t := List.get?_mem hj
      have hne : x ≠ u := fun he => hx (he ▸ hmem)
      rw [List.indexOf_cons_ne t hne, ih j ht hj]

theorem dedupFirst_mem : ∀ (n : Nat) (l : List String), l.length ≤ n →
    ∀ x ∈ dedupFirst l, x ∈ l := by
  intro n
  induction n with
  | zero =>
    intro l hl x hx
    cases l with
    | nil => simp [dedupFirst] at hx
    | cons a t => simp at hl
  | succ m ih =>
    intro l hl x hx
    cases l with
    | nil => simp [dedupFirst] at hx
    | cons a t =>
      rw [dedupFirst] at hx
      rcases List.mem_cons.mp hx with h | h
      · exact h ▸ List.mem_cons_self a t
      · have hlen : (t.filter (fun x => x ≠ a)).length ≤ m := by
          have := List.length_filter_le (fun x => x ≠ a) t
          simp only [List.length_cons] at hl
          omega
        have := ih _ hlen x h
        exact List.mem_cons_of_mem a (List.mem_of_mem_filter this)

theorem dedupFirst_nodup : ∀ (n : Nat) (l : List String), l.length ≤ n →
    (dedupFirst l).Nodup := by
  intro n
  induction n with
  | zero =>
    intro l hl
    cases l with
    | nil => simp [dedupFirst]
    | cons a t => simp at hl
  | succ m ih =>
    intro l hl
    cases l with
    | nil => simp [dedupFirst]
    | cons a t =>
      rw [dedupFirst]
      have hlen : (t.filter (fun x => x ≠ a)).length ≤ m := by
        have := List.length_filter_le (fun x => x ≠ a) t
        simp only [List.length_cons] at hl
        omega
      refine List.nodup_cons.mpr ⟨?notmem, ih _ hlen⟩
      case notmem =>
        intro hmem
        have := dedupFirst_mem m _ hlen a hmem
        have := List.of_mem_filter this
        simp at this

theorem dedupFirst_length_le : ∀ (n : Nat) (l : List String), l.length ≤ n →
    (dedupFirst l).length ≤ l.length := by
  intro n
  induction n with
  | zero =>
    intro l hl
    cases l with
    | nil => simp [dedupFirst]
    | cons a t => simp at hl
  | succ m ih =>
    intro l hl
    cases l with
    | nil => simp [dedupFirst]
    | cons a t =>
      rw [dedupFirst]
      have hfl := List.length_filter_le (fun x => x ≠ a) t
      have hlen : (t.filter (fun x => x ≠ a)).length ≤ m := by
        simp only [List.length_cons] at hl
        omega
      have := ih _ hlen
      simp only [List.length_cons]
      omega

theorem joinedUids_nodup (s : Slots4) : (joinedUids s).Nodup := by
  unfold joinedUids
  exact dedupFirst_nodup _ _ (le_refl _)

theorem joinedUids_len_le (s : Slots4) : (joinedUids s).length ≤ 4 := by
  unfold joinedUids
  have h1 := dedupFirst_length_le _ _
    (le_refl ((slotList s).filterMap (fun o => o.map (fun x => x.uid))).length)
  have h2 := List.length_filterMap_le (fun (o : Option Seat) => o.map (fun x => x.uid))
    (slotList s)
  have h3 : (slotList s).length = 4 := rfl
  omega

theorem makeDeck_ids_nodup : (makeDeck.map (fun c => c.id)).Nodup := by decide

theorem makeDeck_length : makeDeck.length = 52 := by decide

/-! ## Helper lemmas: success equations and rejections of the actions -/

theorem eatHeadTx_eq (uid : String) (now : Nat) (cur : GameState) (q : GamePlayer)
    (hph : cur.phase = .playing) (hw : cur.winnerUid = none) (he : cur.endedAt = none)
    (ht : cur.turnUid = some uid) (hs : cur.step = .draw)
    (hq : lookupPlayer cur.players uid = some q) :
    eatHeadTx uid now cur =
      { cur with
        players := updatePlayer cur.players uid (fun p =>
          { p with hand := p.hand ++ cur.discard.map toCardD,
                   lastTurnTookDiscardFromUid := none })
        cardOrigins := cur.discard.foldl
          (fun m c => setAssoc m c.id ⟨.discard, c.fromUid⟩) cur.cardOrigins
        stock := cur.stock.dropLast
        discard := rebasePile cur.stock.getLast? now
        headCardId := (cur.stock.getLast?).map (fun h => h.id)
        step := .discard } := by
  unfold eatHeadTx
  rw [if_neg (by simp [hph]), if_neg (by simp [hw, he]),
    if_neg (by simp [ht, hs]), hq]

theorem discardTx_eq (uid : String) (cid now : Nat) (cur : GameState)
    (q : GamePlayer) (idx : Nat)
    (hph : cur.phase = .playing) (hw : cur.winnerUid = none) (he : cur.endedAt = none)
    (ht : cur.turnUid = some uid) (hs : cur.step = .discard)
    (hq : lookupPlayer cur.players uid = some q)
    (hf : findIndex (fun c => c.id = cid) q.hand = some idx) :
    discardTx uid cid now cur =
      { cur with
        players := updatePlayer cur.players uid (fun p =>
          { p with hand := p.hand.eraseIdx idx })
        discard := cur.discard ++
          [⟨(q.hand.getD idx default).id, (q.hand.getD idx default).r,
            (q.hand.getD idx default).s, some uid, now⟩]
        cardOrigins := setAssoc cur.cardOrigins (q.hand.getD idx default).id
          ⟨.discard, some uid⟩
        turnUid := (cur.players.map (fun p => p.1)).get?
          (((cur.players.map (fun p => p.1)).indexOf uid + 1)
            % (cur.players.map (fun p => p.1)).length)
        step := .draw } := by
  unfold discardTx
  rw [if_neg (by simp [hph]), if_neg (by simp [hw, he]),
    if_neg (by simp [ht, hs]), hq]
  show discardTxCore uid cid now cur q = _
  unfold discardTxCore
  rw [hf]

theorem takeTopDiscardTx_eq (uid : String) (cur : GameState) (q : GamePlayer)
    (card : DiscardCard)
    (hph : cur.phase = .playing) (hw : cur.winnerUid = none) (he : cur.endedAt = none)
    (ht : cur.turnUid = some uid) (hs : cur.step = .draw)
    (hlen : ¬cur.discard.length < 2)
    (hlast : cur.discard.getLast? = some card)
    (hq : lookupPlayer cur.players uid = some q) :
    takeTopDiscardTx uid cur =
      { cur with
        discard := cur.discard.dropLast
        players := updatePlayer cur.players uid (fun p =>
          { p with hand := p.hand ++ [toCardD card],
                   lastTurnTookDiscardFromUid := card.fromUid })
        cardOrigins := setAssoc cur.cardOrigins card.id ⟨.discard, card.fromUid⟩
        step := .discard } := by
  unfold takeTopDiscardTx
  rw [if_neg (by simp [hph]), if_neg (by simp [hw, he]),
    if_neg (by simp [ht, hs]), if_neg hlen, hlast, hq]

theorem takeTopDiscardTx_short (uid : String) (cur : GameState)
    (h : cur.discard.length < 2) : takeTopDiscardTx uid cur = cur := by
  unfold takeTopDiscardTx
  split_ifs with h1 h2 h3
  any_goals rfl

theorem layMeldTx_no_pile_origin (uid : String) (ids : List Nat) (meldId now : Nat)
    (cur : GameState)
    (h : ∀ cid ∈ ids,
      ((getAssoc cur.cardOrigins cid).map (fun o => o.kind)) ≠ some .discard) :
    layMeldTx uid ids meldId now cur = cur := by
  unfold layMeldTx
  split_ifs with h1 h2 h3 h4
  any_goals rfl
  split
  · rfl
  next q hy =>
    unfold layMeldTxCore
    split
    · rfl
    next picked pickedIdx hp =>
      split
      · rfl
      next kind hc =>
        split_ifs with h5
        any_goals rfl
        obtain ⟨_, _, _, hl4, _⟩ := pickLoop_some hp
        rw [List.any_eq_true] at h5
        obtain ⟨c, hcmem, hcp⟩ := h5
        have hcid : c.id ∈ ids := by
          rw [← hl4]
          exact List.mem_map.mpr ⟨c, hcmem, rfl⟩
        have := h c.id hcid
        rw [decide_eq_true_eq] at hcp
        exact absurd hcp this

theorem applyAction_total (a : GAction) (s : GameState)
    (hnd : (playerKeys s).Nodup) (hwf : actionWF a) :
    totalCards (applyAction a s) = totalCards s := by
  cases a with
  | draw u => exact drawStockTx_total u s hnd
  | takeTop u => exact takeTopDiscardTx_total u s hnd
  | eat u n => exact eatHeadTx_total u n s hnd
  | disc u c n => exact discardTx_total u c n s hnd
  | meld u ids m n => exact layMeldTx_total u ids m n s hnd hwf

theorem applyAction_keys (a : GAction) (s : GameState) :
    playerKeys (applyAction a s) = playerKeys s := by
  cases a with
  | draw u => exact drawStockTx_keys u s
  | takeTop u => exact takeTopDiscardTx_keys u s
  | eat u n => exact eatHeadTx_keys u n s
  | disc u c n => exact discardTx_keys u c n s
  | meld u ids m n => exact layMeldTx_keys u ids m n s

theorem runClaims_taken (claims : List (String × String)) (s : Seat)
    (h : ∀ c ∈ claims, c.1 ≠ s.uid) :
    runClaims claims (some s) = (List.replicate claims.length false, some s) := by
  induction claims with
  | nil => rfl
  | cons c rest ih =>
    obtain ⟨u, nm⟩ := c
    have hu : u ≠ s.uid := h (u, nm) (List.mem_cons_self _ _)
    have hcl : claimSlotTx u nm (some s) = none := by
      show (if s.uid = u then some (some s) else none) = none
      rw [if_neg (fun he => hu he.symm)]
    have hstep : runSlotTx (claimSlotTx u nm) (some s) = (false, some s) := by
      unfold runSlotTx
      rw [hcl]
    show (let r := runSlotTx (claimSlotTx u nm) (some s)
      let rr := runClaims rest r.2
      (r.1 :: rr.1, rr.2)) = _
    rw [hstep]
    show (false :: (runClaims rest (some s)).1, (runClaims rest (some s)).2) = _
    rw [ih (fun x hx => h x (List.mem_cons_of_mem _ hx))]
    simp [List.replicate]

/-! ## Helper lemmas: the non-meld actions never touch the table melds,
so they preserve the bare hands+stock+pile sum as well -/

theorem claimSum_of_total (s1 s2 : GameState)
    (ht : totalCards s1 = totalCards s2) (hm : s1.tableMelds = s2.tableMelds) :
    claimSum s1 = claimSum s2 := by
  have h1 : totalCards s1 = claimSum s1 + meldsLen s1.tableMelds := rfl
  have h2 : totalCards s2 = claimSum s2 + meldsLen s2.tableMelds := rfl
  rw [hm] at h1
  omega

theorem drawStockTx_melds (uid : String) (cur : GameState) :
    (drawStockTx uid cur).tableMelds = cur.tableMelds := by
  unfold drawStockTx
  split_ifs with h1 h2 h3
  any_goals rfl
  cases hx : cur.stock.getLast? with
  | none => rfl
  | some card =>
    cases hy : lookupPlayer cur.players uid with
    | none => rfl
    | some q => rfl

theorem takeTopDiscardTx_melds (uid : String) (cur : GameState) :
    (takeTopDiscardTx uid cur).tableMelds = cur.tableMelds := by
  unfold takeTopDiscardTx
  split_ifs with h1 h2 h3 h4
  any_goals rfl
  cases hx : cur.discard.getLast? with
  | none => rfl
  | some card =>
    cases hy : lookupPlayer cur.players uid with
    | none => rfl
    | some q => rfl

theorem eatHeadTx_melds (uid : String) (now : Nat) (cur : GameState) :
    (eatHeadTx uid now cur).tableMelds = cur.tableMelds := by
  unfold eatHeadTx
  split_ifs with h1 h2 h3
  any_goals rfl
  cases hy : lookupPlayer cur.players uid with
  | none => rfl
  | some q => rfl

theorem discardTx_melds (uid : String) (cid now : Nat) (cur : GameState) :
    (discardTx uid cid now cur).tableMelds = cur.tableMelds := by
  unfold discardTx
  split_ifs with h1 h2 h3
  any_goals rfl
  split
  · rfl
  next q hy =>
    unfold discardTxCore
    split
    · rfl
    next idx hf => rfl

theorem drawStockTx_claimSum (uid : String) (cur : GameState)
    (hnd : (playerKeys cur).Nodup) :
    claimSum (drawStockTx uid cur) = claimSum cur :=
  claimSum_of_total _ _ (drawStockTx_total uid cur hnd) (drawStockTx_melds uid cur)

theorem takeTopDiscardTx_claimSum (uid : String) (cur : GameState)
    (hnd : (playerKeys cur).Nodup) :
    claimSum (takeTopDiscardTx uid cur) = claimSum cur :=
  claimSum_of_total _ _ (takeTopDiscardTx_total uid cur hnd)
    (takeTopDiscardTx_melds uid cur)

theorem eatHeadTx_claimSum (uid : String) (now : Nat) (cur : GameState)
    (hnd : (playerKeys cur).Nodup) :
    claimSum (eatHeadTx uid now cur) = claimSum cur :=
  claimSum_of_total _ _ (eatHeadTx_total uid now cur hnd) (eatHeadTx_melds uid now cur)

theorem discardTx_claimSum (uid : String) (cid now : Nat) (cur : GameState)
    (hnd : (playerKeys cur).Nodup) :
    claimSum (discardTx uid cid now cur) = claimSum cur :=
  claimSum_of_total _ _ (discardTx_total uid cid now cur hnd)
    (discardTx_melds uid cid now cur)

/-! ## Claim theorems -/

/-- C5: the meld classifier is pure and classifies as `set` exactly the lists
of at least 3 cards of identical rank with pairwise-distinct suits, and as
`run` exactly the lists of at least 3 cards of identical suit whose ranks
sorted ascending are strictly consecutive (no wraparound); set-classification
is checked first; `{5C,5D,5H}` is a set, `{4S,5S,6S}` a run, and `{KS,AS,2S}`
invalid. -/
theorem C5_meld_classifier :
    (∀ cards : List Card,
      (classifyMeld cards = some .set ↔ specIsSet cards) ∧
      (classifyMeld cards = some .run ↔ specIsRun cards) ∧
      (isValidSet cards = true → classifyMeld cards = some .set)) ∧
    classifyMeld [⟨4, 5, .C⟩, ⟨17, 5, .D⟩, ⟨30, 5, .H⟩] = some .set ∧
    classifyMeld [⟨42, 4, .S⟩, ⟨43, 5, .S⟩, ⟨44, 6, .S⟩] = some .run ∧
    classifyMeld [⟨51, 13, .S⟩, ⟨39, 1, .S⟩, ⟨40, 2, .S⟩] = none := by
  refine ⟨?main, by decide, by decide, by decide⟩
  case main =>
    intro cards
    refine ⟨(classify_set_iff cards).trans (isValidSet_iff cards),
      (classify_run_iff cards).trans (isValidRun_iff cards), ?first⟩
    case first =>
      intro h
      exact (classify_set_iff cards).mpr h

/-- C5 witness: the set `{5C,5D,5H}` satisfies the `isValidSet` hypothesis and
the classifier indeed reports `set` first. -/
theorem C5_meld_classifier_witness :
    isValidSet [⟨4, 5, .C⟩, ⟨17, 5, .D⟩, ⟨30, 5, .H⟩] = true ∧
    classifyMeld [⟨4, 5, .C⟩, ⟨17, 5, .D⟩, ⟨30, 5, .H⟩] = some .set :=
  ⟨by decide,
    (C5_meld_classifier.1 [⟨4, 5, .C⟩, ⟨17, 5, .D⟩, ⟨30, 5, .H⟩]).2.2 (by decide)⟩

/-- C7: `layMeld` leaves the state unchanged whenever none of the selected
card ids has a pile (`discard`) origin recorded in `cardOrigins` — even if the
selection is an otherwise valid set or run, at least one pile-derived card is
required. -/
theorem C7_meld_requires_pile_origin (uid : String) (ids : List Nat)
    (meldId now : Nat) (cur : GameState)
    (h : ∀ cid ∈ ids,
      ((getAssoc cur.cardOrigins cid).map (fun o => o.kind)) ≠ some .discard) :
    layMeldTx uid ids meldId now cur = cur :=
  layMeldTx_no_pile_origin uid ids meldId now cur h

/-- C7 witness: player A holds the valid run `4C 5C 6C`, entirely drawn from
stock; on A's discard step the meld attempt is rejected and the state is
unchanged. -/
theorem C7_meld_requires_pile_origin_witness :
    classifyMeld wPlayerA.hand = some .run ∧
    wMeldState.turnUid = some "A" ∧ wMeldState.step = .discard ∧
    layMeldTx "A" [3, 4, 5] 7 9 wMeldState = wMeldState :=
  ⟨by decide, by decide, by decide,
    C7_meld_requires_pile_origin "A" [3, 4, 5] 7 9 wMeldState (by decide)⟩

/-- C3: the `claimSlot` transaction occupies an empty seat with
`{identity, displayName, ready: false}` and commits; re-claiming one's own
seat commits with no change (idempotent refresh); a seat occupied by another
identity makes the transaction abort (`committed = false`, value unchanged);
hence of any serialised set of claims by distinct identities on one empty
seat, exactly the first commits and all others observe `committed = false`. -/
theorem C3_claimSlot_contract :
    (∀ uid nm : String,
      runSlotTx (claimSlotTx uid nm) none = (true, some ⟨uid, nm, false⟩)) ∧
    (∀ (uid nm : String) (s : Seat), s.uid = uid →
      runSlotTx (claimSlotTx uid nm) (some s) = (true, some s)) ∧
    (∀ (uid nm : String) (s : Seat), s.uid ≠ uid →
      runSlotTx (claimSlotTx uid nm) (some s) = (false, some s)) ∧
    (∀ (c : String × String) (rest : List (String × String)),
      (((c :: rest).map (fun p => p.1)).Nodup) →
      runClaims (c :: rest) none
        = (true :: List.replicate rest.length false, some ⟨c.1, c.2, false⟩)) := by
  refine ⟨fun uid nm => rfl, ?own, ?taken, ?race⟩
  case own =>
    intro uid nm s h
    have hcl : claimSlotTx uid nm (some s) = some (some s) := by
      show (if s.uid = uid then some (some s) else none) = some (some s)
      rw [if_pos h]
    unfold runSlotTx
    rw [hcl]
  case taken =>
    intro uid nm s h
    have hcl : claimSlotTx uid nm (some s) = none := by
      show (if s.uid = uid then some (some s) else none) = none
      rw [if_neg h]
    unfold runSlotTx
    rw [hcl]
  case race =>
    intro c rest hnd
    obtain ⟨u, nm⟩ := c
    simp only [List.map_cons, List.nodup_cons] at hnd
    have hfirst : runSlotTx (claimSlotTx u nm) none
        = (true, some ⟨u, nm, false⟩) := rfl
    show (let r := runSlotTx (claimSlotTx u nm) none
      let rr := runClaims rest r.2
      (r.1 :: rr.1, rr.2)) = _
    rw [hfirst]
    show (true :: (runClaims rest (some ⟨u, nm, false⟩)).1,
      (runClaims rest (some ⟨u, nm, false⟩)).2) = _
    have hrest : ∀ x ∈ rest, x.1 ≠ (⟨u, nm, false⟩ : Seat).uid := by
      intro x hx he
      have hxu : x.1 = u := he
      exact hnd.1 (hxu ▸ List.mem_map.mpr ⟨x, hx, rfl⟩)
    rw [runClaims_taken rest _ hrest]

/-- C3 witness: three distinct identities race on the same empty seat: the
first commits and occupies it, the other two observe `committed = false`. -/
theorem C3_claimSlot_contract_witness :
    runSlotTx (claimSlotTx "u1" "Ann") none = (true, some ⟨"u1", "Ann", false⟩) ∧
    runSlotTx (claimSlotTx "u1" "Ann") (some ⟨"u1", "Ann", false⟩)
      = (true, some ⟨"u1", "Ann", false⟩) ∧
    runSlotTx (claimSlotTx "u2" "Bob") (some ⟨"u1", "Ann", false⟩)
      = (false, some ⟨"u1", "Ann", false⟩) ∧
    runClaims [("u1", "Ann"), ("u2", "Bob"), ("u3", "Cy")] none
      = (true :: List.replicate 2 false, some ⟨"u1", "Ann", false⟩) :=
  ⟨C3_claimSlot_contract.1 "u1" "Ann",
    C3_claimSlot_contract.2.1 "u1" "Ann" ⟨"u1", "Ann", false⟩ (by decide),
    C3_claimSlot_contract.2.2.1 "u2" "Bob" ⟨"u1", "Ann", false⟩ (by decide),
    C3_claimSlot_contract.2.2.2 ("u1", "Ann") [("u2", "Bob"), ("u3", "Cy")]
      (by decide)⟩

/-- C4: `startGameBySlot1` issues the lobby-to-playing transition only when,
at the authoritative re-fetched room, the caller occupies seat 1, status and
game phase are both `lobby`, the occupied-seat count is between 2 and 4, and
every occupied seat is ready; additionally the transition transaction itself
refuses to flip a phase that is no longer `lobby` at commit time. -/
theorem C4_start_gate :
    (∀ (uid : String) (localRoom : RoomDoc) (latest : Option RoomDoc),
      startProceeds uid localRoom latest = true →
      ∃ l, latest = some l ∧
        (l.slots.s1.map (fun s => s.uid)) = some uid ∧
        statusOf l = .lobby ∧ phaseOf l = .lobby ∧
        2 ≤ playerCount l.slots ∧ playerCount l.slots ≤ 4 ∧
        (∀ seat ∈ currentPlayers l.slots, seat.ready = true)) ∧
    (∀ (gg : GameLite) (now : Nat), gg.phase ≠ .lobby →
      startTx now (some gg) = some gg) ∧
    (∀ now : Nat, startTx now none = none) := by
  refine ⟨?main, ?guard, fun now => rfl⟩
  case guard =>
    intro gg now h
    show (if gg.phase ≠ Phase.lobby then some gg
      else some ⟨.playing, some now⟩) = some gg
    rw [if_pos h]
  case main =>
    intro uid localRoom latest h
    unfold startProceeds at h
    split_ifs at h
    cases latest with
    | none => simp at h
    | some l =>
      refine ⟨l, rfl, ?checks⟩
      have h2 : ((if ¬(l.slots.s1.map (fun s => s.uid)) = some uid then false
          else canStart l) : Bool) = true := h
      split_ifs at h2 with hseat
      push_neg at hseat
      unfold canStart at h2
      rw [Bool.and_eq_true, Bool.and_eq_true, Bool.and_eq_true,
        Bool.and_eq_true] at h2
      obtain ⟨⟨⟨⟨hst, hph⟩, hc2⟩, hc4⟩, hrdy⟩ := h2
      unfold everyoneReady at hrdy
      rw [Bool.and_eq_true] at hrdy
      refine ⟨hseat, decide_eq_true_eq.mp hst, decide_eq_true_eq.mp hph,
        decide_eq_true_eq.mp hc2, decide_eq_true_eq.mp hc4, ?rdy⟩
      case rdy =>
        intro seat hseat2
        have := List.all_eq_true.mp hrdy.2 seat hseat2
        simpa using this

/-- C4 witness: a two-seat, all-ready lobby room passes the gate and the
theorem exhibits the authoritative conditions; a game already at phase
`playing` is left unchanged by the transition transaction. -/
theorem C4_start_gate_witness :
    startProceeds "u1" wRoom (some wRoom) = true ∧
    (∃ l, (some wRoom) = some l ∧
      (l.slots.s1.map (fun s => s.uid)) = some "u1" ∧
      statusOf l = .lobby ∧ phaseOf l = .lobby ∧
      2 ≤ playerCount l.slots ∧ playerCount l.slots ≤ 4 ∧
      (∀ seat ∈ currentPlayers l.slots, seat.ready = true)) ∧
    startTx 5 (some ⟨.playing, some 0⟩) = some ⟨.playing, some 0⟩ :=
  ⟨by decide,
    C4_start_gate.1 "u1" wRoom (some wRoom) (by decide),
    C4_start_gate.2.1 ⟨.playing, some 0⟩ 5 (by decide)⟩

/-- C2: the deal/bootstrap transaction is re-entrant: on any state with
non-empty stock or pile it is the identity; from an undealt playing state it
produces a deal of exactly 52 cards with pairwise-distinct identities whose
stock is non-empty, so any further bootstrap attempt (with any shuffle, any
joined list, any timestamp) is a no-op — exactly one deal takes effect. -/
theorem C2_bootstrap_reentrant :
    (∀ (deck : List Card) (joined : List String) (now : Nat) (s : GameState),
      (s.stock ≠ [] ∨ s.discard ≠ []) → initTx deck joined now s = s) ∧
    (∀ (deck : List Card) (joined : List String) (now : Nat) (cur : GameState),
      deck.Perm makeDeck → joined.Nodup → joined.length ≤ 4 →
      cur.phase = Phase.playing → cur.stock = [] → cur.discard = [] →
      totalCards (initTx deck joined now cur) = 52 ∧
      ((allCards (initTx deck joined now cur)).map (fun c => c.id)).Nodup ∧
      (∀ (deck2 : List Card) (joined2 : List String) (now2 : Nat),
        initTx deck2 joined2 now2 (initTx deck joined now cur)
          = initTx deck joined now cur)) := by
  refine ⟨initTx_noop, ?deal⟩
  case deal =>
    intro deck joined now cur hperm hnd hle hph hst hdc
    have hdeck : deck.length = 52 := by
      rw [hperm.length_eq, makeDeck_length]
    have hpermAll := init_allCards_perm deck joined now cur hnd hle hdeck hph hst hdc
    refine ⟨init_totalCards deck joined now cur hnd hle hdeck hph hst hdc,
      ?nodup, ?idem⟩
    case nodup =>
      have hids : ((allCards (initTx deck joined now cur)).map (fun c => c.id)).Perm
          (makeDeck.map (fun c => c.id)) :=
        (hpermAll.map (fun c => c.id)).trans (hperm.map (fun c => c.id))
      exact (hids.nodup_iff).mpr makeDeck_ids_nodup
    case idem =>
      intro deck2 joined2 now2
      exact initTx_noop deck2 joined2 now2 _
        (Or.inl (init_stock_pos deck joined now cur hle hdeck hph hst hdc))

/-- C2 witness: a concrete deal from `cexDeck` for two joined identities
totals 52 cards, and a racing second bootstrap with a different shuffle is a
no-op on the dealt state. -/
theorem C2_bootstrap_reentrant_witness :
    totalCards cs1 = 52 ∧ initTx makeDeck ["A", "B"] 7 cs1 = cs1 :=
  ⟨(C2_bootstrap_reentrant.2 cexDeck ["A", "B"] 1 startState (by decide) (by decide)
      (by decide) (by decide) rfl rfl).1,
    (C2_bootstrap_reentrant.2 cexDeck ["A", "B"] 1 startState (by decide) (by decide)
      (by decide) (by decide) rfl rfl).2.2 makeDeck ["A", "B"] 7⟩

/-- C10: `joinedUids` deduplicates the seat occupants (keeping first
occurrence), so the deal creates exactly one player record, with exactly one
7-card hand, per distinct joined identity — even when one identity occupies
several seats. -/
theorem C10_dedup_one_hand_per_identity (slots : Slots4) (deck : List Card)
    (now : Nat) (cur : GameState)
    (hperm : deck.Perm makeDeck) (hph : cur.phase = Phase.playing)
    (hst : cur.stock = []) (hdc : cur.discard = []) :
    (joinedUids slots).Nodup ∧
    playerKeys (initTx deck (joinedUids slots) now cur) = joinedUids slots ∧
    ∀ p ∈ (initTx deck (joinedUids slots) now cur).players, p.2.hand.length = 7 := by
  have hdeck : deck.length = 52 := by
    rw [hperm.length_eq, makeDeck_length]
  exact ⟨joinedUids_nodup slots,
    init_playerKeys deck (joinedUids slots) now cur hph hst hdc,
    init_hand_len deck (joinedUids slots) now cur (joinedUids_nodup slots)
      (joinedUids_len_le slots) hdeck hph hst hdc⟩

/-- C10 witness: identity A occupies seats 1 and 2, B occupies seat 3; the
joined list is the duplicate-free `[A, B]` and the deal creates exactly these
two player records. -/
theorem C10_dedup_one_hand_per_identity_witness :
    (joinedUids ⟨some ⟨"A", "a", true⟩, some ⟨"A", "a", true⟩,
        some ⟨"B", "b", true⟩, none⟩).Nodup ∧
    playerKeys (initTx cexDeck
        (joinedUids ⟨some ⟨"A", "a", true⟩, some ⟨"A", "a", true⟩,
          some ⟨"B", "b", true⟩, none⟩) 1 startState)
      = joinedUids ⟨some ⟨"A", "a", true⟩, some ⟨"A", "a", true⟩,
          some ⟨"B", "b", true⟩, none⟩ :=
  ⟨(C10_dedup_one_hand_per_identity
      ⟨some ⟨"A", "a", true⟩, some ⟨"A", "a", true⟩, some ⟨"B", "b", true⟩, none⟩
      cexDeck 1 startState (by decide) (by decide) rfl rfl).1,
    (C10_dedup_one_hand_per_identity
      ⟨some ⟨"A", "a", true⟩, some ⟨"A", "a", true⟩, some ⟨"B", "b", true⟩, none⟩
      cexDeck 1 startState (by decide) (by decide) rfl rfl).2.1⟩

/-- C1 counterexample: from a genuine shuffled deck (`cexDeck` is a
permutation of `makeDeck`), the deal for players A and B satisfies
`hands + stock + pile = 52`, the sum survives `eatHead`, but after A lays the
valid set `{5C, 5D, 5H}` (anchored by the pile-derived `5H`) the meld is on
the table and `hands + stock + pile = 49 ≠ 52`: `layMeld` does not preserve
the claimed sum. -/
theorem C1_counterexample :
    cexDeck.Perm makeDeck ∧
    claimSum cs1 = 52 ∧ claimSum cs2 = 52 ∧
    cs3.tableMelds.length = 1 ∧ claimSum cs3 = 49 := by
  refine ⟨by decide, by decide, by decide, by decide, by decide⟩

/-- C1 amended: after bootstrap `hands + stock + pile = 52` (and the total
including table melds is 52); the total including the cards of laid melds is
preserved by every action (`drawFromStock`, `takeTopOfPile`, `eatHead`,
`discard`, `layMeld`); and the bare `hands + stock + pile` sum is preserved
by each of the four non-meld actions (layMeld instead moves the selected
cards from the hand onto the table, conserving only the meld-inclusive
total). -/
theorem C1_card_conservation :
    (∀ (deck : List Card) (joined : List String) (now : Nat) (cur : GameState),
      deck.Perm makeDeck → joined.Nodup → joined.length ≤ 4 →
      cur.phase = Phase.playing → cur.stock = [] → cur.discard = [] →
      claimSum (initTx deck joined now cur) = 52 ∧
      totalCards (initTx deck joined now cur) = 52 ∧
      (playerKeys (initTx deck joined now cur)).Nodup) ∧
    (∀ (a : GAction) (s : GameState), (playerKeys s).Nodup → actionWF a →
      totalCards (applyAction a s) = totalCards s ∧
      playerKeys (applyAction a s) = playerKeys s) ∧
    (∀ (uid : String) (s : GameState), (playerKeys s).Nodup →
      claimSum (drawStockTx uid s) = claimSum s) ∧
    (∀ (uid : String) (s : GameState), (playerKeys s).Nodup →
      claimSum (takeTopDiscardTx uid s) = claimSum s) ∧
    (∀ (uid : String) (now : Nat) (s : GameState), (playerKeys s).Nodup →
      claimSum (eatHeadTx uid now s) = claimSum s) ∧
    (∀ (uid : String) (cid now : Nat) (s : GameState), (playerKeys s).Nodup →
      claimSum (discardTx uid cid now s) = claimSum s) := by
  refine ⟨?deal, ?acts, drawStockTx_claimSum, takeTopDiscardTx_claimSum,
    eatHeadTx_claimSum, discardTx_claimSum⟩
  case deal =>
    intro deck joined now cur hperm hnd hle hph hst hdc
    have hdeck : deck.length = 52 := by
      rw [hperm.length_eq, makeDeck_length]
    have htot := init_totalCards deck joined now cur hnd hle hdeck hph hst hdc
    have hmelds : (initTx deck joined now cur).tableMelds = [] := by
      rw [initTx_body deck joined now cur hph hst hdc]
    have hsum : totalCards (initTx deck joined now cur)
        = claimSum (initTx deck joined now cur)
          + meldsLen (initTx deck joined now cur).tableMelds := rfl
    rw [hmelds] at hsum
    have hml : meldsLen [] = 0 := rfl
    refine ⟨by omega, htot, ?keys⟩
    case keys =>
      rw [init_playerKeys deck joined now cur hph hst hdc]
      exact hnd
  case acts =>
    intro a s hnd hwf
    exact ⟨applyAction_total a s hnd hwf, applyAction_keys a s⟩

/-- C1 witness: the concrete deal from `cexDeck` totals 52, and the concrete
`layMeld` of `{5C, 5D, 5H}` on the post-eatHead state preserves the total
including table melds. -/
theorem C1_card_conservation_witness :
    claimSum cs1 = 52 ∧
    totalCards (applyAction (GAction.meld "A" [4, 17, 30] 99 3) cs2)
      = totalCards cs2 ∧
    claimSum (eatHeadTx "A" 2 cs1) = claimSum cs1 :=
  ⟨(C1_card_conservation.1 cexDeck ["A", "B"] 1 startState (by decide) (by decide)
      (by decide) (by decide) rfl rfl).1,
    (C1_card_conservation.2.1 (GAction.meld "A" [4, 17, 30] 99 3) cs2
      (by decide) (show ([4, 17, 30] : List Nat).Nodup by decide)).1,
    C1_card_conservation.2.2.2.2.1 "A" 2 cs1 (by decide)⟩

/-- C8: `takeTopOfPile` is rejected, leaving the state unchanged, whenever the
pile has fewer than 2 cards (the lone head is protected); with at least 2
cards on the caller's draw turn it moves exactly the pile's last card into the
caller's hand, records its origin as pile with the card's discarder, and
advances the step to discard, leaving the stock untouched. -/
theorem C8_takeTop_guard :
    (∀ (uid : String) (cur : GameState), cur.discard.length < 2 →
      takeTopDiscardTx uid cur = cur) ∧
    (∀ (uid : String) (cur : GameState) (q : GamePlayer) (card : DiscardCard),
      cur.phase = .playing → cur.winnerUid = none → cur.endedAt = none →
      cur.turnUid = some uid → cur.step = .draw →
      2 ≤ cur.discard.length → cur.discard.getLast? = some card →
      lookupPlayer cur.players uid = some q →
      (takeTopDiscardTx uid cur).discard = cur.discard.dropLast ∧
      lookupPlayer (takeTopDiscardTx uid cur).players uid
        = some { q with hand := q.hand ++ [toCardD card],
                        lastTurnTookDiscardFromUid := card.fromUid } ∧
      getAssoc (takeTopDiscardTx uid cur).cardOrigins card.id
        = some ⟨.discard, card.fromUid⟩ ∧
      (takeTopDiscardTx uid cur).step = .discard ∧
      (takeTopDiscardTx uid cur).stock = cur.stock) := by
  refine ⟨takeTopDiscardTx_short, ?take⟩
  case take =>
    intro uid cur q card hph hw he ht hs hlen hlast hq
    have heq := takeTopDiscardTx_eq uid cur q card hph hw he ht hs
      (by omega) hlast hq
    rw [heq]
    refine ⟨rfl, ?hand, getAssoc_setAssoc_self _ _ _, rfl, rfl⟩
    case hand =>
      show lookupPlayer (updatePlayer cur.players uid (fun p =>
          { p with hand := p.hand ++ [toCardD card],
                   lastTurnTookDiscardFromUid := card.fromUid })) uid
        = some { q with hand := q.hand ++ [toCardD card],
                        lastTurnTookDiscardFromUid := card.fromUid }
      rw [lookupPlayer_updatePlayer_self, hq]
      rfl

/-- C8 witness: on a two-card pile at A's draw step, the take succeeds: the
top card `101` (discarded by B) moves into A's hand with pile provenance, and
the take is refused on a one-card pile. -/
theorem C8_takeTop_guard_witness :
    takeTopDiscardTx "A" wMeldState = wMeldState ∧
    (takeTopDiscardTx "A" wTakeState).discard = wTakeState.discard.dropLast ∧
    getAssoc (takeTopDiscardTx "A" wTakeState).cardOrigins 101
      = some ⟨.discard, some "B"⟩ ∧
    (takeTopDiscardTx "A" wTakeState).step = .discard :=
  ⟨C8_takeTop_guard.1 "A" wMeldState (by decide),
    (C8_takeTop_guard.2 "A" wTakeState wPlayerA ⟨101, 3, Suit.H, some "B", 1⟩
      (by decide) (by decide) (by decide) (by decide) (by decide) (by decide)
      (by decide) (by decide)).1,
    (C8_takeTop_guard.2 "A" wTakeState wPlayerA ⟨101, 3, Suit.H, some "B", 1⟩
      (by decide) (by decide) (by decide) (by decide) (by decide) (by decide)
      (by decide) (by decide)).2.2.1,
    (C8_takeTop_guard.2 "A" wTakeState wPlayerA ⟨101, 3, Suit.H, some "B", 1⟩
      (by decide) (by decide) (by decide) (by decide) (by decide) (by decide)
      (by decide) (by decide)).2.2.2.1⟩

/-- C9: the bootstrap keys the `players` record by the joined identities in
join order; every action preserves that key order; and a completed discard
resets the step to draw and hands the turn to the identity at the next
position after the caller in that key order, wrapping to the first after the
last. -/
theorem C9_turn_rotation :
    (∀ (deck : List Card) (joined : List String) (now : Nat) (cur : GameState),
      cur.phase = Phase.playing → cur.stock = [] → cur.discard = [] →
      playerKeys (initTx deck joined now cur) = joined) ∧
    (∀ (a : GAction) (s : GameState),
      playerKeys (applyAction a s) = playerKeys s) ∧
    (∀ (uid : String) (cid now : Nat) (cur : GameState) (q : GamePlayer)
      (idx i : Nat),
      cur.phase = .playing → cur.winnerUid = none → cur.endedAt = none →
      cur.turnUid = some uid → cur.step = .discard →
      lookupPlayer cur.players uid = some q →
      findIndex (fun c => c.id = cid) q.hand = some idx →
      (playerKeys cur).Nodup → (playerKeys cur).get? i = some uid →
      (discardTx uid cid now cur).step = .draw ∧
      (discardTx uid cid now cur).turnUid =
        (if i + 1 < (playerKeys cur).length then (playerKeys cur).get? (i + 1)
         else (playerKeys cur).get? 0)) := by
  refine ⟨init_playerKeys, applyAction_keys, ?rot⟩
  case rot =>
    intro uid cid now cur q idx i hph hw he ht hs hq hf hnd hget
    have heq := discardTx_eq uid cid now cur q idx hph hw he ht hs hq hf
    rw [heq]
    refine ⟨rfl, ?turn⟩
    case turn =>
      have hidx : (playerKeys cur).indexOf uid = i :=
        indexOf_of_get? (playerKeys cur) i uid hnd hget
      have hlen : i < (playerKeys cur).length := by
        obtain ⟨hlt, _⟩ := List.get?_eq_some.mp hget
        exact hlt
      show (playerKeys cur).get? (((playerKeys cur).indexOf uid + 1)
          % (playerKeys cur).length) = _
      rw [hidx]
      by_cases hnext : i + 1 < (playerKeys cur).length
      · rw [if_pos hnext, Nat.mod_eq_of_lt hnext]
      · have hend : i + 1 = (playerKeys cur).length := by omega
        rw [if_neg hnext, hend, Nat.mod_self]

/-- C9 witness: in a two-player game with key order `[A, B]`, A's discard of
card 3 resets the step to draw and passes the turn to B. -/
theorem C9_turn_rotation_witness :
    (discardTx "A" 3 5 wMeldState).step = .draw ∧
    (discardTx "A" 3 5 wMeldState).turnUid =
      (if 0 + 1 < (playerKeys wMeldState).length
       then (playerKeys wMeldState).get? (0 + 1)
       else (playerKeys wMeldState).get? 0) :=
  C9_turn_rotation.2.2 "A" 3 5 wMeldState wPlayerA 0 0 (by decide) (by decide)
    (by decide) (by decide) (by decide) (by decide) (by decide) (by decide)
    (by decide)

/-- C6 counterexample: on the concrete dealt state `cs1` (non-empty pile, A's
draw turn) `eatHead` followed immediately by a discard leaves the pile with
TWO cards — the fresh head re-based from stock plus the discarded card on top
— not exactly one as claimed. -/
theorem C6_counterexample :
    cs1.phase = Phase.playing ∧ cs1.turnUid = some "A" ∧
    cs1.step = Step.draw ∧ cs1.discard ≠ [] ∧ cs1.stock ≠ [] ∧
    cs6.discard.length = 2 ∧
    (cs6.discard.head?).map (fun d => d.id) = cs6.headCardId ∧
    (cs6.discard.getLast?).map (fun d => d.id) = some 4 := by
  refine ⟨by decide, by decide, by decide, by decide, by decide,
    by decide, by decide, by decide⟩

/-- C6 amended: `eatHead` re-bases the pile as `[newHead]` popped from stock
(or empty if the stock is exhausted); an immediately following discard
therefore leaves the pile with exactly TWO cards — the new head at the base
and the discarded card on top — or exactly one (the discarded card alone)
when the stock was exhausted at `eatHead`. -/
theorem C6_eat_then_discard (uid : String) (cid now now2 : Nat)
    (cur : GameState) (q : GamePlayer) (idx : Nat)
    (hph : cur.phase = .playing) (hw : cur.winnerUid = none)
    (he : cur.endedAt = none) (ht : cur.turnUid = some uid)
    (hs : cur.step = .draw) (_hpile : cur.discard ≠ [])
    (hq : lookupPlayer cur.players uid = some q)
    (hf : findIndex (fun c => c.id = cid)
      (q.hand ++ cur.discard.map toCardD) = some idx) :
    (discardTx uid cid now2 (eatHeadTx uid now cur)).discard
      = rebasePile cur.stock.getLast? now ++
        [⟨((q.hand ++ cur.discard.map toCardD).getD idx default).id,
          ((q.hand ++ cur.discard.map toCardD).getD idx default).r,
          ((q.hand ++ cur.discard.map toCardD).getD idx default).s,
          some uid, now2⟩] ∧
    (discardTx uid cid now2 (eatHeadTx uid now cur)).discard.length
      = (if cur.stock = [] then 1 else 2) ∧
    (cur.stock ≠ [] →
      ((discardTx uid cid now2 (eatHeadTx uid now cur)).discard.head?).map
        (fun d => d.id) = (cur.stock.getLast?).map (fun c => c.id)) ∧
    ((discardTx uid cid now2 (eatHeadTx uid now cur)).discard.getLast?).map
      (fun d => d.id) = some cid := by
  have hs1 := eatHeadTx_eq uid now cur q hph hw he ht hs hq
  have hq1 : lookupPlayer (eatHeadTx uid now cur).players uid
      = some { q with hand := q.hand ++ cur.discard.map toCardD,
                      lastTurnTookDiscardFromUid := none } := by
    rw [hs1]
    show lookupPlayer (updatePlayer cur.players uid (fun p =>
        { p with hand := p.hand ++ cur.discard.map toCardD,
                 lastTurnTookDiscardFromUid := none })) uid = _
    rw [lookupPlayer_updatePlayer_self, hq]
    rfl
  have hd := discardTx_eq uid cid now2 (eatHeadTx uid now cur)
    { q with hand := q.hand ++ cur.discard.map toCardD,
             lastTurnTookDiscardFromUid := none } idx
    (by rw [hs1]; exact hph) (by rw [hs1]; exact hw) (by rw [hs1]; exact he)
    (by rw [hs1]; exact ht) (by rw [hs1]) hq1 hf
  have hdisc1 : (eatHeadTx uid now cur).discard
      = rebasePile cur.stock.getLast? now := by
    rw [hs1]
  have hmain : (discardTx uid cid now2 (eatHeadTx uid now cur)).discard
      = rebasePile cur.stock.getLast? now ++
        [⟨((q.hand ++ cur.discard.map toCardD).getD idx default).id,
          ((q.hand ++ cur.discard.map toCardD).getD idx default).r,
          ((q.hand ++ cur.discard.map toCardD).getD idx default).s,
          some uid, now2⟩] := by
    rw [hd]
    show (eatHeadTx uid now cur).discard ++ _ = _
    rw [hdisc1]
  refine ⟨hmain, ?len, ?hd2, ?top⟩
  case len =>
    rw [hmain, List.length_append, rebasePile_length]
    by_cases hstk : cur.stock = []
    · rw [if_pos hstk, hstk]
      rfl
    · rw [if_neg hstk]
      have hlast : cur.stock.getLast? = some (cur.stock.getLast hstk) :=
        List.getLast?_eq_getLast _ hstk
      rw [hlast]
      rfl
  case hd2 =>
    intro hstk
    have hlast : cur.stock.getLast? = some (cur.stock.getLast hstk) :=
      List.getLast?_eq_getLast _ hstk
    rw [hmain, hlast]
    rfl
  case top =>
    rw [hmain, List.getLast?_concat]
    have hgid := (findIndex_some hf).2
    rw [decide_eq_true_eq] at hgid
    simpa using hgid

/-- C6 witness: from the small state with a two-card pile and one stock card,
A eats the head and discards card 3: the pile ends with exactly two cards and
the discarded card on top. -/
theorem C6_eat_then_discard_witness :
    (discardTx "A" 3 9 (eatHeadTx "A" 8 wTakeState)).discard.length
      = (if wTakeState.stock = [] then 1 else 2) ∧
    ((discardTx "A" 3 9 (eatHeadTx "A" 8 wTakeState)).discard.getLast?).map
      (fun d => d.id) = some 3 :=
  ⟨(C6_eat_then_discard "A" 3 8 9 wTakeState wPlayerA 0 (by decide) (by decide)
      (by decide) (by decide) (by decide) (by decide) (by decide) (by decide)).2.1,
    (C6_eat_then_discard "A" 3 8 9 wTakeState wPlayerA 0 (by decide) (by decide)
      (by decide) (by decide) (by decide) (by decide) (by decide) (by decide)).2.2.2⟩
